import Mathlib

/-!
Verification of the local-first store core of the mcpsovereign SDK
(`src/index.ts`: `LocalStoreManager` and the sync portion of
`SovereignClient`).

Modelling conventions:
* TypeScript optional fields (`x?: T`) become `Option T`; an absent field is
  `none`.
* JavaScript string truthiness matters in this code (`!p.remote_id` and
  `existing.remote_id ? _ : _`): the empty string is falsy.  The predicate
  `truthy` models this exactly.
* Timestamps (`new Date().toISOString()`) and the random identifiers of
  `generateId` are nondeterministic inputs; operations take them as explicit
  arguments.
* JS numbers are modelled as `Int` (no claim exercises fractional or float
  behaviour).
* Arbitrary JSON objects (`delivery_payload`, file contents) are modelled by
  the `Json` inductive below.
-/

inductive Json where
  | null : Json
  | bool (b : Bool) : Json
  | num (n : Int) : Json
  | str (s : String) : Json
  | arr (elems : List Json) : Json
  | obj (fields : List (String × Json)) : Json

inductive DeliveryType where
  | download | repo | api | manual
deriving DecidableEq

inductive Status where
  | draft | ready | synced | modified
deriving DecidableEq

inductive Direction where
  | push | pull
deriving DecidableEq

/-- Mirror of the `LocalProduct` interface. -/
structure LocalProduct where
  local_id : String
  remote_id : Option String
  name : String
  description : String
  category_id : String
  price : Int
  delivery_type : DeliveryType
  delivery_payload : Option Json
  content_hash : Option String
  file_size_bytes : Option Int
  status : Status
  created_at : String
  updated_at : String
  synced_at : Option String

/-- Mirror of the `StoreProfile` interface; `social_links` is a string map,
kept as an association list in insertion order. -/
structure StoreProfile where
  name : Option String := none
  tagline : Option String := none
  description : Option String := none
  logo_url : Option String := none
  banner_url : Option String := none
  social_links : Option (List (String × String)) := none

/-- Mirror of the entries of `LocalStore.sync_history`. -/
structure SyncHistoryEntry where
  id : String
  direction : Direction
  timestamp : String
  products_synced : Nat

/-- Mirror of the `LocalStore` interface. -/
structure LocalStore where
  version : String
  profile : StoreProfile
  products : List LocalProduct
  sync_history : List SyncHistoryEntry
  last_sync : Option String

/-- `getDefaultStore` from `LocalStoreManager`. -/
def getDefaultStore : LocalStore :=
  { version := "1.0.0"
    profile := {}
    products := []
    sync_history := []
    last_sync := none }

/-- JavaScript truthiness of a `string | undefined` value: `undefined` and
the empty string are falsy. -/
def truthy : Option String → Bool
  | none => false
  | some s => s != ""

/-- Argument of `createProduct`: `Omit<LocalProduct, 'local_id' | 'status' |
'created_at' | 'updated_at'>`.  Note that `remote_id` and `synced_at` are
not omitted by the source type. -/
structure ProductInput where
  remote_id : Option String := none
  name : String
  description : String
  category_id : String
  price : Int
  delivery_type : DeliveryType
  delivery_payload : Option Json := none
  content_hash : Option String := none
  file_size_bytes : Option Int := none
  synced_at : Option String := none

/-- `createProduct`: the generated id and the current timestamp are explicit
arguments (the source draws them from `generateId()` and `new Date()`). -/
def createProduct (input : ProductInput) (localId now : String)
    (s : LocalStore) : LocalProduct × LocalStore :=
  let newProduct : LocalProduct :=
    { local_id := localId
      remote_id := input.remote_id
      name := input.name
      description := input.description
      category_id := input.category_id
      price := input.price
      delivery_type := input.delivery_type
      delivery_payload := input.delivery_payload
      content_hash := input.content_hash
      file_size_bytes := input.file_size_bytes
      status := .draft
      created_at := now
      updated_at := now
      synced_at := input.synced_at }
  (newProduct, { s with products := s.products ++ [newProduct] })

/-- Argument of `updateProduct`: `Partial<LocalProduct>`.  A `none` field is
an absent key of the partial object. -/
structure ProductUpdates where
  local_id : Option String := none
  remote_id : Option String := none
  name : Option String := none
  description : Option String := none
  category_id : Option String := none
  price : Option Int := none
  delivery_type : Option DeliveryType := none
  delivery_payload : Option Json := none
  content_hash : Option String := none
  file_size_bytes : Option Int := none
  status : Option Status := none
  created_at : Option String := none
  updated_at : Option String := none
  synced_at : Option String := none

/-- The record built by `updateProduct` for a found product: spread of the
existing record, then the updates, then the overriding fields `local_id`,
`updated_at` and `status` (the last one computed from the truthiness of the
existing `remote_id`, so a status supplied in the updates never survives). -/
def applyUpdates (u : ProductUpdates) (now : String) (p : LocalProduct) :
    LocalProduct :=
  { local_id := p.local_id
    remote_id := Option.or u.remote_id p.remote_id
    name := u.name.getD p.name
    description := u.description.getD p.description
    category_id := u.category_id.getD p.category_id
    price := u.price.getD p.price
    delivery_type := u.delivery_type.getD p.delivery_type
    delivery_payload := Option.or u.delivery_payload p.delivery_payload
    content_hash := Option.or u.content_hash p.content_hash
    file_size_bytes := Option.or u.file_size_bytes p.file_size_bytes
    status := if truthy p.remote_id then .modified else p.status
    created_at := u.created_at.getD p.created_at
    updated_at := now
    synced_at := Option.or u.synced_at p.synced_at }

/-- `findIndex` plus in-place assignment of `updateProduct`: rewrite the
first product matching the id, returning it together with the new list. -/
def updateFirst (localId : String) (f : LocalProduct → LocalProduct) :
    List LocalProduct → Option (LocalProduct × List LocalProduct)
  | [] => none
  | p :: ps =>
    if p.local_id = localId then some (f p, f p :: ps)
    else (updateFirst localId f ps).map (fun r => (r.1, p :: r.2))

/-- `updateProduct`: returns `none` (the `null` of the source) and the store
unchanged when the id is absent. -/
def updateProduct (localId : String) (u : ProductUpdates) (now : String)
    (s : LocalStore) : Option LocalProduct × LocalStore :=
  match updateFirst localId (applyUpdates u now) s.products with
  | none => (none, s)
  | some (q, ps) => (some q, { s with products := ps })

/-- The updates object `{ status: 'ready' }` passed by `markReady`. -/
def readyUpdates : ProductUpdates := { status := some .ready }

/-- `markReady`: `updateProduct(localId, { status: 'ready' })`. -/
def markReady (localId now : String) (s : LocalStore) :
    Option LocalProduct × LocalStore :=
  updateProduct localId readyUpdates now s

/-- `findIndex` plus `splice` of `deleteProduct`: remove the first product
matching the id. -/
def removeFirst (localId : String) :
    List LocalProduct → Option (List LocalProduct)
  | [] => none
  | p :: ps =>
    if p.local_id = localId then some ps
    else (removeFirst localId ps).map (fun r => p :: r)

/-- `deleteProduct`: returns `false` and the store unchanged when the id is
absent. -/
def deleteProduct (localId : String) (s : LocalStore) : Bool × LocalStore :=
  match removeFirst localId s.products with
  | none => (false, s)
  | some ps => (true, { s with products := ps })

/-- `getProduct`. -/
def getProduct (localId : String) (s : LocalStore) : Option LocalProduct :=
  s.products.find? (fun p => p.local_id = localId)

/-- `getUnsyncedProducts`. -/
def getUnsyncedProducts (s : LocalStore) : List LocalProduct :=
  s.products.filter (fun p =>
    decide (p.status = .ready) || decide (p.status = .modified))

inductive SyncAction where
  | create | update | delete | unchanged
deriving DecidableEq

/-- The `data` snapshot attached to actionable manifest entries. -/
structure ManifestData where
  name : String
  description : String
  category_id : String
  price : Int
  delivery_type : DeliveryType
  delivery_payload : Option Json
  content_hash : Option String
  file_size_bytes : Option Int

structure ManifestEntry where
  local_id : String
  remote_id : Option String
  action : SyncAction
  data : Option ManifestData
  local_updated_at : String

/-- Manifest action decision of `generateSyncManifest`: note the JS guards
`!p.remote_id` and `p.remote_id && ...`, which use string truthiness. -/
def manifestAction (p : LocalProduct) : SyncAction :=
  if truthy p.remote_id = false ∧ p.status = .ready then .create
  else if truthy p.remote_id = true ∧ p.status = .modified then .update
  else .unchanged

/-- The field snapshot taken for `create` and `update` entries. -/
def snapshotOf (p : LocalProduct) : ManifestData :=
  { name := p.name
    description := p.description
    category_id := p.category_id
    price := p.price
    delivery_type := p.delivery_type
    delivery_payload := p.delivery_payload
    content_hash := p.content_hash
    file_size_bytes := p.file_size_bytes }

/-- The manifest entry built for one non-draft product. -/
def entryOf (p : LocalProduct) : ManifestEntry :=
  { local_id := p.local_id
    remote_id := p.remote_id
    action := manifestAction p
    data := if manifestAction p ≠ .unchanged then some (snapshotOf p) else none
    local_updated_at := p.updated_at }

/-- Mirror of the `SyncManifest` interface.  The `checksum` field is omitted:
it is a hash of the JSON text of the product list, no claim depends on it,
and its value carries no information used anywhere in the SDK. -/
structure SyncManifest where
  version : String
  agent_id : String
  timestamp : String
  products : List ManifestEntry
  store_profile : StoreProfile

/-- `generateSyncManifest`: drafts filtered out, every remaining product
mapped to an entry. -/
def generateSyncManifest (agentId now : String) (s : LocalStore) :
    SyncManifest :=
  { version := "1.0.0"
    agent_id := agentId
    timestamp := now
    products := (s.products.filter (fun p => decide (p.status ≠ .draft))).map entryOf
    store_profile := s.profile }

structure SyncPair where
  local_id : String
  remote_id : String

structure SyncError where
  local_id : String
  error : String

structure SyncResultLists where
  created : List SyncPair
  updated : List SyncPair
  deleted : List String
  errors : List SyncError

/-- Mirror of the `SyncResult` interface. -/
structure SyncResult where
  sync_id : String
  timestamp : String
  results : SyncResultLists

/-- Mutation applied to a product found for a `created` pair: set
`remote_id`, set status `synced`, set `synced_at`. -/
def cwrite (remoteId ts : String) (p : LocalProduct) : LocalProduct :=
  { p with remote_id := some remoteId, status := .synced, synced_at := some ts }

/-- Mutation applied to a product found for an `updated` pair: set status
`synced` and `synced_at`, leaving `remote_id` alone. -/
def uwrite (ts : String) (p : LocalProduct) : LocalProduct :=
  { p with status := .synced, synced_at := some ts }

/-- `find` plus in-place mutation: rewrite the first product matching the
id, leaving the list unchanged when no product matches. -/
def setFirst (localId : String) (f : LocalProduct → LocalProduct) :
    List LocalProduct → List LocalProduct
  | [] => []
  | p :: ps =>
    if p.local_id = localId then f p :: ps
    else p :: setFirst localId f ps

/-- The `created` loop of `applySyncResults`. -/
def runCreated (ts : String) (cs : List SyncPair)
    (ps : List LocalProduct) : List LocalProduct :=
  cs.foldl (fun acc c => setFirst c.local_id (cwrite c.remote_id ts) acc) ps

/-- The `updated` loop of `applySyncResults`. -/
def runUpdated (ts : String) (us : List SyncPair)
    (ps : List LocalProduct) : List LocalProduct :=
  us.foldl (fun acc u => setFirst u.local_id (uwrite ts) acc) ps

/-- `applySyncResults`: the two loops over `created` and `updated`, one
appended history entry, `last_sync` set.  The `deleted` and `errors` lists
are never read. -/
def applySyncResults (r : SyncResult) (s : LocalStore) : LocalStore :=
  { s with
    products := runUpdated r.timestamp r.results.updated
      (runCreated r.timestamp r.results.created s.products)
    sync_history := s.sync_history ++
      [{ id := r.sync_id
         direction := .push
         timestamp := r.timestamp
         products_synced :=
           r.results.created.length + r.results.updated.length }]
    last_sync := some r.timestamp }

structure ApiError where
  code : String
  message : String

/-- Mirror of `ApiResponse<T>` (billing headers omitted: no claim touches
them). -/
structure ApiResponse (α : Type) where
  success : Bool
  data : Option α
  error : Option ApiError

/-- The value returned by `request` when the transport throws: the catch
block turns the exception into a structured failure value. -/
def networkErrorResponse (msg : String) : ApiResponse SyncResult :=
  { success := false
    data := none
    error := some { code := "NETWORK_ERROR", message := msg } }

/-- The store-affecting tail of `SovereignClient.push`, parametrised by the
transport outcome: `applySyncResults` and `save` run only under
`response.success && response.data`.  Returns the new store, whether `save`
was invoked, and the value returned to the caller. -/
def pushApply (resp : ApiResponse SyncResult) (s : LocalStore) :
    LocalStore × Bool × ApiResponse SyncResult :=
  match resp.success, resp.data with
  | true, some r => (applySyncResults r s, true, resp)
  | true, none => (s, false, resp)
  | false, _ => (s, false, resp)

/-! Sample value builders used by concrete witnesses and counterexamples. -/

/-- Product with fixed content fields, parametrised by id, remote id and
status. -/
def mkProduct (lid : String) (rid : Option String) (st : Status) :
    LocalProduct :=
  { local_id := lid
    remote_id := rid
    name := "n"
    description := "d"
    category_id := "c"
    price := 1
    delivery_type := .download
    delivery_payload := none
    content_hash := none
    file_size_bytes := none
    status := st
    created_at := "t0"
    updated_at := "t0"
    synced_at := none }

/-- Default store carrying the given product list. -/
def storeOf (ps : List LocalProduct) : LocalStore :=
  { getDefaultStore with products := ps }

/-! Core algebra of `setFirst` and the two `applySyncResults` loops. -/

/-- Fields of a product that neither sync-loop write touches. -/
def core (p : LocalProduct) :
    String × String × String × String × Int × DeliveryType × Option Json ×
    Option String × Option Int × String × String :=
  (p.local_id, p.name, p.description, p.category_id, p.price,
   p.delivery_type, p.delivery_payload, p.content_hash, p.file_size_bytes,
   p.created_at, p.updated_at)

theorem core_cwrite (r ts : String) (p : LocalProduct) :
    core (cwrite r ts p) = core p := rfl

theorem core_uwrite (ts : String) (p : LocalProduct) :
    core (uwrite ts p) = core p := rfl

theorem local_id_cwrite (r ts : String) (p : LocalProduct) :
    (cwrite r ts p).local_id = p.local_id := rfl

theorem local_id_uwrite (ts : String) (p : LocalProduct) :
    (uwrite ts p).local_id = p.local_id := rfl

theorem local_id_of_core_eq {p q : LocalProduct} (h : core p = core q) :
    p.local_id = q.local_id := by
  cases p; cases q
  simp only [core, Prod.mk.injEq] at h
  exact h.1

theorem cwrite_of_core_eq (r ts : String) {p q : LocalProduct}
    (h : core p = core q) : cwrite r ts p = cwrite r ts q := by
  cases p; cases q
  simp only [core, Prod.mk.injEq] at h
  simp [cwrite]
  tauto

theorem cwrite_cwrite (r ts r' ts' : String) (p : LocalProduct) :
    cwrite r ts (cwrite r' ts' p) = cwrite r ts p := rfl

theorem cwrite_uwrite (r ts ts' : String) (p : LocalProduct) :
    cwrite r ts (uwrite ts' p) = cwrite r ts p := rfl

theorem uwrite_uwrite (ts : String) (p : LocalProduct) :
    uwrite ts (uwrite ts p) = uwrite ts p := rfl

theorem uwrite_cwrite_comm (r ts : String) (p : LocalProduct) :
    uwrite ts (cwrite r ts p) = cwrite r ts (uwrite ts p) := rfl

theorem setFirst_congr (l : String) {f g : LocalProduct → LocalProduct}
    (h : ∀ p, f p = g p) (ps : List LocalProduct) :
    setFirst l f ps = setFirst l g ps := by
  induction ps with
  | nil => rfl
  | cons p ps ih =>
    simp only [setFirst]
    split
    · rw [h]
    · rw [ih]

theorem setFirst_map_local_id (l : String) {f : LocalProduct → LocalProduct}
    (hf : ∀ p, (f p).local_id = p.local_id) (ps : List LocalProduct) :
    (setFirst l f ps).map (fun p => p.local_id) =
      ps.map (fun p => p.local_id) := by
  induction ps with
  | nil => rfl
  | cons p ps ih =>
    simp only [setFirst]
    split
    · simp [hf]
    · simp [ih]

theorem setFirst_setFirst_same (l : String)
    {f g : LocalProduct → LocalProduct}
    (hg : ∀ p, (g p).local_id = p.local_id) (ps : List LocalProduct) :
    setFirst l f (setFirst l g ps) = setFirst l (fun p => f (g p)) ps := by
  induction ps with
  | nil => rfl
  | cons p ps ih =>
    by_cases h : p.local_id = l
    · have hgp : (g p).local_id = l := by rw [hg]; exact h
      simp only [setFirst, if_pos h, if_pos hgp]
    · simp only [setFirst, if_neg h, ih]

theorem setFirst_comm_ne {l l' : String} (hne : l ≠ l')
    {f g : LocalProduct → LocalProduct}
    (hf : ∀ p, (f p).local_id = p.local_id)
    (hg : ∀ p, (g p).local_id = p.local_id) (ps : List LocalProduct) :
    setFirst l f (setFirst l' g ps) = setFirst l' g (setFirst l f ps) := by
  induction ps with
  | nil => rfl
  | cons p ps ih =>
    by_cases h' : p.local_id = l'
    · have h : ¬ p.local_id = l := fun hc => hne (hc.symm.trans h')
      have hgp : (g p).local_id = l' := by rw [hg]; exact h'
      have hgnl : ¬ (g p).local_id = l := by rw [hg]; exact h
      simp only [setFirst, if_pos h', if_neg h, if_pos hgp, if_neg hgnl]
    · by_cases h : p.local_id = l
      · have hfp : (f p).local_id = l := by rw [hf]; exact h
        have hfnl : ¬ (f p).local_id = l' := by rw [hf]; exact h'
        simp only [setFirst, if_neg h', if_pos h, if_pos hfp, if_neg hfnl]
      · simp only [setFirst, if_neg h', if_neg h, ih]

theorem setFirst_comm_fun {l l' : String}
    {f g : LocalProduct → LocalProduct}
    (hcomm : ∀ p, f (g p) = g (f p))
    (hf : ∀ p, (f p).local_id = p.local_id)
    (hg : ∀ p, (g p).local_id = p.local_id) (ps : List LocalProduct) :
    setFirst l f (setFirst l' g ps) = setFirst l' g (setFirst l f ps) := by
  by_cases h : l = l'
  · subst h
    rw [setFirst_setFirst_same l hg, setFirst_setFirst_same l hf]
    exact setFirst_congr l hcomm ps
  · exact setFirst_comm_ne h hf hg ps

theorem runCreated_cons (ts : String) (c : SyncPair) (cs : List SyncPair)
    (ps : List LocalProduct) :
    runCreated ts (c :: cs) ps =
      runCreated ts cs (setFirst c.local_id (cwrite c.remote_id ts) ps) :=
  rfl

theorem runCreated_snoc (ts : String) (cs : List SyncPair) (c : SyncPair)
    (ps : List LocalProduct) :
    runCreated ts (cs ++ [c]) ps =
      setFirst c.local_id (cwrite c.remote_id ts) (runCreated ts cs ps) := by
  simp [runCreated, List.foldl_append]

theorem runUpdated_cons (ts : String) (u : SyncPair) (us : List SyncPair)
    (ps : List LocalProduct) :
    runUpdated ts (u :: us) ps =
      runUpdated ts us (setFirst u.local_id (uwrite ts) ps) :=
  rfl

theorem runCreated_map_local_id (ts : String) (cs : List SyncPair)
    (ps : List LocalProduct) :
    (runCreated ts cs ps).map (fun p => p.local_id) =
      ps.map (fun p => p.local_id) := by
  induction cs generalizing ps with
  | nil => rfl
  | cons c cs ih =>
    rw [runCreated_cons, ih, setFirst_map_local_id _ (local_id_cwrite _ _)]

theorem runUpdated_map_local_id (ts : String) (us : List SyncPair)
    (ps : List LocalProduct) :
    (runUpdated ts us ps).map (fun p => p.local_id) =
      ps.map (fun p => p.local_id) := by
  induction us generalizing ps with
  | nil => rfl
  | cons u us ih =>
    rw [runUpdated_cons, ih, setFirst_map_local_id _ (local_id_uwrite _)]

theorem setFirst_uwrite_comm_runCreated (l ts : String) (cs : List SyncPair)
    (ps : List LocalProduct) :
    setFirst l (uwrite ts) (runCreated ts cs ps) =
      runCreated ts cs (setFirst l (uwrite ts) ps) := by
  induction cs generalizing ps with
  | nil => rfl
  | cons c cs ih =>
    calc setFirst l (uwrite ts) (runCreated ts (c :: cs) ps)
        = setFirst l (uwrite ts)
            (runCreated ts cs (setFirst c.local_id (cwrite c.remote_id ts) ps)) := by
          rw [runCreated_cons]
      _ = runCreated ts cs
            (setFirst l (uwrite ts) (setFirst c.local_id (cwrite c.remote_id ts) ps)) :=
          ih _
      _ = runCreated ts cs
            (setFirst c.local_id (cwrite c.remote_id ts) (setFirst l (uwrite ts) ps)) := by
          rw [setFirst_comm_fun (fun p => uwrite_cwrite_comm _ _ p)
            (local_id_uwrite _) (local_id_cwrite _ _)]
      _ = runCreated ts (c :: cs) (setFirst l (uwrite ts) ps) := by
          rw [runCreated_cons]

theorem runUpdated_comm_runCreated (ts : String) (us cs : List SyncPair)
    (ps : List LocalProduct) :
    runUpdated ts us (runCreated ts cs ps) =
      runCreated ts cs (runUpdated ts us ps) := by
  induction us generalizing ps with
  | nil => rfl
  | cons u us ih =>
    calc runUpdated ts (u :: us) (runCreated ts cs ps)
        = runUpdated ts us
            (setFirst u.local_id (uwrite ts) (runCreated ts cs ps)) := by
          rw [runUpdated_cons]
      _ = runUpdated ts us
            (runCreated ts cs (setFirst u.local_id (uwrite ts) ps)) := by
          rw [setFirst_uwrite_comm_runCreated]
      _ = runCreated ts cs
            (runUpdated ts us (setFirst u.local_id (uwrite ts) ps)) := ih _
      _ = runCreated ts cs (runUpdated ts (u :: us) ps) := by
          rw [runUpdated_cons]

theorem setFirst_uwrite_comm_runUpdated (l ts : String) (us : List SyncPair)
    (ps : List LocalProduct) :
    setFirst l (uwrite ts) (runUpdated ts us ps) =
      runUpdated ts us (setFirst l (uwrite ts) ps) := by
  induction us generalizing ps with
  | nil => rfl
  | cons u us ih =>
    calc setFirst l (uwrite ts) (runUpdated ts (u :: us) ps)
        = setFirst l (uwrite ts)
            (runUpdated ts us (setFirst u.local_id (uwrite ts) ps)) := by
          rw [runUpdated_cons]
      _ = runUpdated ts us
            (setFirst l (uwrite ts) (setFirst u.local_id (uwrite ts) ps)) :=
          ih _
      _ = runUpdated ts us
            (setFirst u.local_id (uwrite ts) (setFirst l (uwrite ts) ps)) := by
          rw [setFirst_comm_fun (fun p => rfl) (local_id_uwrite _)
            (local_id_uwrite _)]
      _ = runUpdated ts (u :: us) (setFirst l (uwrite ts) ps) := by
          rw [runUpdated_cons]

theorem runUpdated_idem (ts : String) (us : List SyncPair)
    (ps : List LocalProduct) :
    runUpdated ts us (runUpdated ts us ps) = runUpdated ts us ps := by
  induction us generalizing ps with
  | nil => rfl
  | cons u us ih =>
    calc runUpdated ts (u :: us) (runUpdated ts (u :: us) ps)
        = runUpdated ts us (setFirst u.local_id (uwrite ts)
            (runUpdated ts us (setFirst u.local_id (uwrite ts) ps))) := by
          rw [runUpdated_cons, runUpdated_cons]
      _ = runUpdated ts us (runUpdated ts us (setFirst u.local_id (uwrite ts)
            (setFirst u.local_id (uwrite ts) ps))) := by
          rw [setFirst_uwrite_comm_runUpdated]
      _ = runUpdated ts us (runUpdated ts us
            (setFirst u.local_id (uwrite ts) ps)) := by
          rw [setFirst_setFirst_same _ (local_id_uwrite _),
            setFirst_congr _ (uwrite_uwrite ts)]
      _ = runUpdated ts us (setFirst u.local_id (uwrite ts) ps) := ih _
      _ = runUpdated ts (u :: us) ps := by rw [runUpdated_cons]

theorem runCreated_absorb (ts : String) (cs : List SyncPair) (l r : String)
    (v : LocalProduct → LocalProduct) (hv : ∀ p, core (v p) = core p)
    (x : List LocalProduct) :
    setFirst l (cwrite r ts) (runCreated ts cs (setFirst l v x)) =
      setFirst l (cwrite r ts) (runCreated ts cs x) := by
  induction cs generalizing v x with
  | nil =>
    calc setFirst l (cwrite r ts) (runCreated ts [] (setFirst l v x))
        = setFirst l (cwrite r ts) (setFirst l v x) := rfl
      _ = setFirst l (fun p => cwrite r ts (v p)) x :=
          setFirst_setFirst_same _ (fun p => local_id_of_core_eq (hv p)) x
      _ = setFirst l (cwrite r ts) x :=
          setFirst_congr l (fun p => cwrite_of_core_eq r ts (hv p)) x
      _ = setFirst l (cwrite r ts) (runCreated ts [] x) := rfl
  | cons c cs ih =>
    by_cases h : c.local_id = l
    · calc setFirst l (cwrite r ts) (runCreated ts (c :: cs) (setFirst l v x))
          = setFirst l (cwrite r ts) (runCreated ts cs
              (setFirst c.local_id (cwrite c.remote_id ts) (setFirst l v x))) := by
            rw [runCreated_cons]
        _ = setFirst l (cwrite r ts) (runCreated ts cs
              (setFirst l (fun p => cwrite c.remote_id ts (v p)) x)) := by
            rw [h, setFirst_setFirst_same _ (fun p => local_id_of_core_eq (hv p))]
        _ = setFirst l (cwrite r ts) (runCreated ts cs x) :=
            ih _ (fun p => (core_cwrite _ _ _).trans (hv p)) x
        _ = setFirst l (cwrite r ts) (runCreated ts cs
              (setFirst l (cwrite c.remote_id ts) x)) :=
            (ih _ (fun p => core_cwrite _ _ _) x).symm
        _ = setFirst l (cwrite r ts) (runCreated ts (c :: cs) x) := by
            rw [← h, ← runCreated_cons]
    · calc setFirst l (cwrite r ts) (runCreated ts (c :: cs) (setFirst l v x))
          = setFirst l (cwrite r ts) (runCreated ts cs
              (setFirst c.local_id (cwrite c.remote_id ts) (setFirst l v x))) := by
            rw [runCreated_cons]
        _ = setFirst l (cwrite r ts) (runCreated ts cs
              (setFirst l v (setFirst c.local_id (cwrite c.remote_id ts) x))) := by
            rw [setFirst_comm_ne h (local_id_cwrite _ _)
              (fun p => local_id_of_core_eq (hv p))]
        _ = setFirst l (cwrite r ts) (runCreated ts cs
              (setFirst c.local_id (cwrite c.remote_id ts) x)) := ih v hv _
        _ = setFirst l (cwrite r ts) (runCreated ts (c :: cs) x) := by
            rw [runCreated_cons]

theorem runCreated_idem (ts : String) (cs : List SyncPair)
    (ps : List LocalProduct) :
    runCreated ts cs (runCreated ts cs ps) = runCreated ts cs ps := by
  induction cs using List.reverseRecOn with
  | nil => rfl
  | append_singleton cs c ih =>
    rw [runCreated_snoc, runCreated_snoc,
      runCreated_absorb ts cs c.local_id c.remote_id
        (cwrite c.remote_id ts) (fun p => core_cwrite _ _ _), ih]

/-! Relating `updateProduct` to `getProduct` (same first-match policy). -/

theorem updateFirst_fst (lid : String) (f : LocalProduct → LocalProduct)
    (ps : List LocalProduct) :
    (updateFirst lid f ps).map (fun r => r.1) =
      (ps.find? (fun p => p.local_id = lid)).map f := by
  induction ps with
  | nil => rfl
  | cons p ps ih =>
    by_cases h : p.local_id = lid
    · simp [updateFirst, List.find?, h]
    · simp [updateFirst, List.find?, h, ← ih, Option.map_map]
      rfl

theorem updateProduct_fst (lid : String) (u : ProductUpdates) (now : String)
    (s : LocalStore) :
    (updateProduct lid u now s).1 = (getProduct lid s).map (applyUpdates u now) := by
  have h := updateFirst_fst lid (applyUpdates u now) s.products
  unfold updateProduct getProduct
  cases hu : updateFirst lid (applyUpdates u now) s.products with
  | none =>
    rw [hu] at h
    simp only [Option.map_none'] at h
    simp [← h]
  | some r =>
    rw [hu] at h
    simp only [Option.map_some'] at h
    simp [← h]

/-- Claim C1 (code-bug evaluation).  The claim states that `markReady`
transitions an existing product to status `ready`; the source contradicts
itself: `markReady` forwards `{ status: 'ready' }` to `updateProduct`, whose
record literal overrides the spread-in updates with
`status: existing.remote_id ? 'modified' : existing.status`, so a draft
product without a `remote_id` keeps status `draft`.  The not-found half of
the claim (a `null` return exactly when the id is absent) does hold, as the
third conjunct shows on an absent id. -/
theorem markReady_keeps_draft :
    ((markReady "a" "t1" (storeOf [mkProduct "a" none Status.draft])).1).map
        (fun p => p.status) = some Status.draft ∧
    ((markReady "a" "t1" (storeOf [mkProduct "a" none Status.draft])).2).products.map
        (fun p => p.status) = [Status.draft] ∧
    ((markReady "missing" "t1" (storeOf [mkProduct "a" none Status.draft])).1).isNone
        = true := by
  decide

/-- Claim C5: applying the same `SyncResult` twice leaves every product
(field-for-field, in particular status, remote_id and synced_at) exactly as
after applying it once. -/
theorem applySyncResults_idempotent (r : SyncResult) (s : LocalStore) :
    (applySyncResults r (applySyncResults r s)).products =
      (applySyncResults r s).products := by
  simp only [applySyncResults]
  rw [← runUpdated_comm_runCreated, runCreated_idem, runUpdated_idem]

/-- Claim C10: `applySyncResults` never removes (nor adds) a product — the
positional list of `local_id`s is unchanged; the `deleted` list of the
`SyncResult` has no effect whatsoever on the resulting store; and the single
appended `sync_history` entry counts exactly the `created` plus `updated`
pairs (`deleted` and `errors` entries are not counted). -/
theorem applySyncResults_frame (r : SyncResult) (s : LocalStore)
    (d : List String) :
    (applySyncResults r s).products.map (fun p => p.local_id) =
        s.products.map (fun p => p.local_id) ∧
    applySyncResults { r with results := { r.results with deleted := d } } s =
        applySyncResults r s ∧
    (applySyncResults r s).sync_history = s.sync_history ++
        [{ id := r.sync_id
           direction := Direction.push
           timestamp := r.timestamp
           products_synced :=
             r.results.created.length + r.results.updated.length }] := by
  refine ⟨?_, rfl, rfl⟩
  simp only [applySyncResults]
  rw [runUpdated_map_local_id, runCreated_map_local_id]

/-- Claim C6: when the transport fails or the response does not carry both
`success` and a `SyncResult` payload, `push` performs no local mutation —
`applySyncResults` and `save` are not invoked (the save flag is `false`),
the store is returned unchanged, and the structured response value (never an
exception) is handed back to the caller. -/
theorem push_failure_no_mutation (resp : ApiResponse SyncResult)
    (s : LocalStore) (h : resp.success = false ∨ resp.data = none) :
    (pushApply resp s).1 = s ∧ (pushApply resp s).2.1 = false ∧
      (pushApply resp s).2.2 = resp := by
  rcases h with h | h
  · cases hd : resp.data <;> simp [pushApply, h, hd]
  · cases hs : resp.success <;> simp [pushApply, h, hs]

/-- Witness for claim C6 at the concrete value `request` produces on a
thrown network error. -/
theorem push_failure_no_mutation_witness :
    ((networkErrorResponse "boom").success = false ∨
        (networkErrorResponse "boom").data = none) ∧
    ((pushApply (networkErrorResponse "boom") getDefaultStore).1 =
          getDefaultStore ∧
      (pushApply (networkErrorResponse "boom") getDefaultStore).2.1 = false ∧
      (pushApply (networkErrorResponse "boom") getDefaultStore).2.2 =
          networkErrorResponse "boom") :=
  ⟨Or.inl rfl,
    push_failure_no_mutation (networkErrorResponse "boom") getDefaultStore
      (Or.inl rfl)⟩

/-- Claim C9 (amended): `updateProduct` ignores a status supplied in the
partial fields; the resulting status is `modified` when the existing record
has a nonempty `remote_id` (the source tests JS truthiness, so an
empty-string `remote_id` behaves like an absent one) and the previous status
otherwise. -/
theorem updateProduct_status_override (s : LocalStore) (lid : String)
    (u : ProductUpdates) (now : String) (p : LocalProduct)
    (h : getProduct lid s = some p) :
    ((updateProduct lid u now s).1).map (fun q => q.status) =
      some (if truthy p.remote_id then Status.modified else p.status) := by
  rw [updateProduct_fst, h]
  rfl

/-- Witness for claim C9: a caller-supplied status `synced` on a draft
product without a remote id is ignored; the product stays `draft`. -/
theorem updateProduct_status_override_witness :
    getProduct "a" (storeOf [mkProduct "a" none Status.draft]) =
        some (mkProduct "a" none Status.draft) ∧
    ((updateProduct "a" { status := some Status.synced } "t1"
          (storeOf [mkProduct "a" none Status.draft])).1).map
        (fun q => q.status) =
      some (if truthy (mkProduct "a" none Status.draft).remote_id
        then Status.modified else (mkProduct "a" none Status.draft).status) :=
  ⟨rfl, updateProduct_status_override _ _ _ _ _ rfl⟩

/-- Counterexample to claim C9 as stated: a product whose `remote_id` is the
empty string has a `remote_id`, yet an update leaves its previous status
(`synced` here) instead of setting `modified`, because the source tests
`existing.remote_id ? ... : ...` and the empty string is falsy. -/
theorem updateProduct_status_override_cex :
    (getProduct "a" (storeOf [mkProduct "a" (some "") Status.synced])).map
        (fun p => p.remote_id) = some (some "") ∧
    ¬ (((updateProduct "a" { name := some "x" } "t1"
          (storeOf [mkProduct "a" (some "") Status.synced])).1).map
        (fun q => q.status) = some Status.modified) := by
  decide

/-! Claim C3: characterization of the generated manifest. -/

theorem forall2_map_self {α β : Type} (R : β → α → Prop)
    (f : α → β) (l : List α) (h : ∀ x ∈ l, R (f x) x) :
    List.Forall₂ R (l.map f) l := by
  induction l with
  | nil => exact List.Forall₂.nil
  | cons x l ih =>
    exact List.Forall₂.cons (h x (List.mem_cons_self x l))
      (ih (fun y hy => h y (List.mem_cons_of_mem x hy)))

theorem entryOf_characterization (p : LocalProduct) :
    (entryOf p).local_id = p.local_id ∧ (entryOf p).remote_id = p.remote_id ∧
    (entryOf p).local_updated_at = p.updated_at ∧
    ((entryOf p).action = SyncAction.create ↔
      truthy p.remote_id = false ∧ p.status = Status.ready) ∧
    ((entryOf p).action = SyncAction.update ↔
      truthy p.remote_id = true ∧ p.status = Status.modified) ∧
    (entryOf p).action ≠ SyncAction.delete ∧
    (((entryOf p).action = SyncAction.create ∨
        (entryOf p).action = SyncAction.update) →
      (entryOf p).data = some (snapshotOf p)) ∧
    ((entryOf p).action = SyncAction.unchanged → (entryOf p).data = none) := by
  cases htr : truthy p.remote_id <;> cases hst : p.status <;>
    simp [entryOf, manifestAction, htr, hst]

/-- Claim C3 (amended): for every store, `generateSyncManifest` emits the
entries of exactly the non-draft products, in order (so draft products get
no entry); an entry has action `create` exactly when the product's
`remote_id` is absent or empty and its status is `ready`, action `update`
exactly when the `remote_id` is present and nonempty and the status is
`modified`, and `unchanged` otherwise (never `delete`); the full field
snapshot is attached exactly for `create` and `update` and omitted for
`unchanged`.  The amendment relative to the claim text: the source tests JS
truthiness of `remote_id`, so an empty-string `remote_id` counts as absent
rather than present. -/
theorem generateSyncManifest_characterization (agentId now : String)
    (s : LocalStore) :
    List.Forall₂ (fun (e : ManifestEntry) (p : LocalProduct) =>
      e.local_id = p.local_id ∧ e.remote_id = p.remote_id ∧
      e.local_updated_at = p.updated_at ∧
      (e.action = SyncAction.create ↔
        truthy p.remote_id = false ∧ p.status = Status.ready) ∧
      (e.action = SyncAction.update ↔
        truthy p.remote_id = true ∧ p.status = Status.modified) ∧
      e.action ≠ SyncAction.delete ∧
      ((e.action = SyncAction.create ∨ e.action = SyncAction.update) →
        e.data = some (snapshotOf p)) ∧
      (e.action = SyncAction.unchanged → e.data = none))
    (generateSyncManifest agentId now s).products
    (s.products.filter (fun p => decide (p.status ≠ Status.draft))) := by
  exact forall2_map_self _ entryOf _
    (fun p _ => entryOf_characterization p)

/-- Counterexample to claim C3 as stated: in a store containing products in
all four statuses plus a `ready` product whose `remote_id` is the empty
string, the manifest gives that last product action `create` even though it
does have a `remote_id` (the claim predicts `unchanged` for it, since the
create condition requires the absence of a remote_id). -/
theorem generateSyncManifest_cex :
    ∃ e ∈ (generateSyncManifest "ag" "t" (storeOf
      [mkProduct "p1" none Status.draft,
       mkProduct "p2" none Status.ready,
       mkProduct "p3" (some "r") Status.synced,
       mkProduct "p4" (some "r2") Status.modified,
       mkProduct "p5" (some "") Status.ready])).products,
      e.action = SyncAction.create ∧ e.remote_id ≠ none := by
  decide

/-! Claim C7: membership and status propagation through the sync loops. -/

def createdIds (r : SyncResult) : List String :=
  r.results.created.map (fun c => c.local_id)

def updatedIds (r : SyncResult) : List String :=
  r.results.updated.map (fun u => u.local_id)

theorem mem_setFirst_of_ne {q : LocalProduct} {l : String}
    {f : LocalProduct → LocalProduct} {ps : List LocalProduct}
    (hq : q ∈ ps) (hne : q.local_id ≠ l) : q ∈ setFirst l f ps := by
  induction ps with
  | nil => cases hq
  | cons p ps ih =>
    rcases List.mem_cons.mp hq with h | h
    · subst h
      have : ¬ q.local_id = l := hne
      simp only [setFirst, if_neg this]
      exact List.mem_cons_self _ _
    · by_cases hp : p.local_id = l
      · simp only [setFirst, if_pos hp]
        exact List.mem_cons_of_mem _ h
      · simp only [setFirst, if_neg hp]
        exact List.mem_cons_of_mem _ (ih h)

theorem mem_runCreated_of_not_written {q : LocalProduct} {ts : String}
    {cs : List SyncPair} {ps : List LocalProduct}
    (hq : q ∈ ps) (hnw : q.local_id ∉ cs.map (fun c => c.local_id)) :
    q ∈ runCreated ts cs ps := by
  induction cs generalizing ps with
  | nil => exact hq
  | cons c cs ih =>
    rw [runCreated_cons]
    refine ih (mem_setFirst_of_ne hq ?_) ?_
    · intro h
      exact hnw (List.map_cons (fun c => c.local_id) c cs ▸
        (h ▸ List.mem_cons_self _ _))
    · intro h
      exact hnw (List.map_cons (fun c => c.local_id) c cs ▸
        List.mem_cons_of_mem _ h)

theorem mem_runUpdated_of_not_written {q : LocalProduct} {ts : String}
    {us : List SyncPair} {ps : List LocalProduct}
    (hq : q ∈ ps) (hnw : q.local_id ∉ us.map (fun u => u.local_id)) :
    q ∈ runUpdated ts us ps := by
  induction us generalizing ps with
  | nil => exact hq
  | cons u us ih =>
    rw [runUpdated_cons]
    refine ih (mem_setFirst_of_ne hq ?_) ?_
    · intro h
      exact hnw (List.map_cons (fun u => u.local_id) u us ▸
        (h ▸ List.mem_cons_self _ _))
    · intro h
      exact hnw (List.map_cons (fun u => u.local_id) u us ▸
        List.mem_cons_of_mem _ h)

/-- All products carrying the given id are already marked `synced` with the
given timestamp. -/
def statusSyncedAt (l ts : String) (ps : List LocalProduct) : Prop :=
  ∀ q ∈ ps, q.local_id = l → q.status = .synced ∧ q.synced_at = some ts

theorem mem_setFirst {q : LocalProduct} {l : String}
    {f : LocalProduct → LocalProduct} {ps : List LocalProduct}
    (hq : q ∈ setFirst l f ps) :
    q ∈ ps ∨ ∃ p ∈ ps, p.local_id = l ∧ q = f p := by
  induction ps with
  | nil => cases hq
  | cons p ps ih =>
    by_cases hp : p.local_id = l
    · rw [setFirst, if_pos hp] at hq
      rcases List.mem_cons.mp hq with h | h
      · exact Or.inr ⟨p, List.mem_cons_self _ _, hp, h⟩
      · exact Or.inl (List.mem_cons_of_mem _ h)
    · rw [setFirst, if_neg hp] at hq
      rcases List.mem_cons.mp hq with h | h
      · exact Or.inl (h ▸ List.mem_cons_self _ _)
      · rcases ih h with h' | ⟨p', hp', hl', hq'⟩
        · exact Or.inl (List.mem_cons_of_mem _ h')
        · exact Or.inr ⟨p', List.mem_cons_of_mem _ hp', hl', hq'⟩

/-- Writes that produce a `synced` product stamped with `ts` preserve
`statusSyncedAt` under any `setFirst`. -/
theorem setFirst_preserves_statusSyncedAt {l l' ts : String}
    {f : LocalProduct → LocalProduct} {ps : List LocalProduct}
    (hf : ∀ p, (f p).status = Status.synced ∧ (f p).synced_at = some ts)
    (h : statusSyncedAt l ts ps) :
    statusSyncedAt l ts (setFirst l' f ps) := by
  intro q hq hl
  rcases mem_setFirst hq with h' | ⟨p, hp, _, hq'⟩
  · exact h q h' hl
  · exact hq' ▸ hf p

theorem runCreated_preserves_statusSyncedAt {l ts : String}
    {cs : List SyncPair} {ps : List LocalProduct}
    (h : statusSyncedAt l ts ps) :
    statusSyncedAt l ts (runCreated ts cs ps) := by
  induction cs generalizing ps with
  | nil => exact h
  | cons c cs ih =>
    rw [runCreated_cons]
    exact ih (setFirst_preserves_statusSyncedAt (fun p => ⟨rfl, rfl⟩) h)

theorem runUpdated_preserves_statusSyncedAt {l ts : String}
    {us : List SyncPair} {ps : List LocalProduct}
    (h : statusSyncedAt l ts ps) :
    statusSyncedAt l ts (runUpdated ts us ps) := by
  induction us generalizing ps with
  | nil => exact h
  | cons u us ih =>
    rw [runUpdated_cons]
    exact ih (setFirst_preserves_statusSyncedAt (fun p => ⟨rfl, rfl⟩) h)

/-- With pairwise distinct ids, a `setFirst` at `l` with a synced-stamping
write establishes `statusSyncedAt` for `l`. -/
theorem setFirst_establishes_statusSyncedAt {l ts : String}
    {f : LocalProduct → LocalProduct} {ps : List LocalProduct}
    (hnd : (ps.map (fun p => p.local_id)).Nodup)
    (hmem : l ∈ ps.map (fun p => p.local_id))
    (hf : ∀ p, (f p).status = Status.synced ∧ (f p).synced_at = some ts ∧
      (f p).local_id = p.local_id) :
    statusSyncedAt l ts (setFirst l f ps) := by
  induction ps with
  | nil => cases hmem
  | cons p ps ih =>
    rw [List.map_cons, List.nodup_cons] at hnd
    by_cases hp : p.local_id = l
    · intro q hq hl
      rw [setFirst, if_pos hp] at hq
      rcases List.mem_cons.mp hq with h | h
      · exact ⟨(h ▸ (hf p).1), (h ▸ (hf p).2.1)⟩
      · exfalso
        apply hnd.1
        rw [hp, ← hl]
        exact List.mem_map_of_mem (fun p => p.local_id) h
    · intro q hq hl
      rw [setFirst, if_neg hp] at hq
      rcases List.mem_cons.mp hq with h | h
      · exact absurd (h ▸ hl) hp
      · have hmem' : l ∈ ps.map (fun p => p.local_id) := by
          rcases List.mem_cons.mp (List.map_cons (fun q : LocalProduct => q.local_id) p ps ▸ hmem) with h' | h'
          · exact absurd h'.symm hp
          · exact h'
        exact ih hnd.2 hmem' q h hl

theorem runCreated_establishes_statusSyncedAt {l ts : String}
    {cs : List SyncPair} {ps : List LocalProduct}
    (hnd : (ps.map (fun p => p.local_id)).Nodup)
    (hmem : l ∈ ps.map (fun p => p.local_id))
    (hcov : l ∈ cs.map (fun c => c.local_id)) :
    statusSyncedAt l ts (runCreated ts cs ps) := by
  induction cs generalizing ps with
  | nil => cases hcov
  | cons c cs ih =>
    rw [runCreated_cons]
    by_cases hc : c.local_id = l
    · refine runCreated_preserves_statusSyncedAt ?_
      exact hc ▸ setFirst_establishes_statusSyncedAt hnd (hc ▸ hmem)
        (fun p => ⟨rfl, rfl, rfl⟩)
    · have hcov' : l ∈ cs.map (fun c => c.local_id) := by
        rcases List.mem_cons.mp (List.map_cons (fun d : SyncPair => d.local_id) c cs ▸ hcov) with h' | h'
        · exact absurd h'.symm hc
        · exact h'
      refine ih ?_ ?_ hcov'
      · rw [setFirst_map_local_id _ (local_id_cwrite _ _)]
        exact hnd
      · rw [setFirst_map_local_id _ (local_id_cwrite _ _)]
        exact hmem

theorem runUpdated_establishes_statusSyncedAt {l ts : String}
    {us : List SyncPair} {ps : List LocalProduct}
    (hnd : (ps.map (fun p => p.local_id)).Nodup)
    (hmem : l ∈ ps.map (fun p => p.local_id))
    (hcov : l ∈ us.map (fun u => u.local_id)) :
    statusSyncedAt l ts (runUpdated ts us ps) := by
  induction us generalizing ps with
  | nil => cases hcov
  | cons u us ih =>
    rw [runUpdated_cons]
    by_cases hu : u.local_id = l
    · refine runUpdated_preserves_statusSyncedAt ?_
      exact hu ▸ setFirst_establishes_statusSyncedAt hnd (hu ▸ hmem)
        (fun p => ⟨rfl, rfl, rfl⟩)
    · have hcov' : l ∈ us.map (fun u => u.local_id) := by
        rcases List.mem_cons.mp (List.map_cons (fun d : SyncPair => d.local_id) u us ▸ hcov) with h' | h'
        · exact absurd h'.symm hu
        · exact h'
      refine ih ?_ ?_ hcov'
      · rw [setFirst_map_local_id _ (local_id_uwrite _)]
        exact hnd
      · rw [setFirst_map_local_id _ (local_id_uwrite _)]
        exact hmem

/-- Claim C7: in a store (with pairwise distinct ids) holding three pending
products A, B, C, if a SyncResult covers A and B through its created/updated
lists and merely names C in its errors list, then applySyncResults moves
exactly A and B to status `synced` (stamping `synced_at`), while C survives
completely unchanged — the identical record is still present — and C still
shows up in `getUnsyncedProducts`. -/
theorem partial_failure_isolation (s : LocalStore) (r : SyncResult)
    (A B C : LocalProduct)
    (hnd : (s.products.map (fun p => p.local_id)).Nodup)
    (hA : A ∈ s.products) (hB : B ∈ s.products) (hC : C ∈ s.products)
    (hApend : A.status = Status.ready ∨ A.status = Status.modified)
    (hBpend : B.status = Status.ready ∨ B.status = Status.modified)
    (hCpend : C.status = Status.ready ∨ C.status = Status.modified)
    (hAB : A.local_id ≠ B.local_id) (hAC : A.local_id ≠ C.local_id)
    (hBC : B.local_id ≠ C.local_id)
    (hAcov : A.local_id ∈ createdIds r ∨ A.local_id ∈ updatedIds r)
    (hBcov : B.local_id ∈ createdIds r ∨ B.local_id ∈ updatedIds r)
    (hCnc : C.local_id ∉ createdIds r) (hCnu : C.local_id ∉ updatedIds r)
    (hCerr : C.local_id ∈ r.results.errors.map (fun e => e.local_id)) :
    (∀ q ∈ (applySyncResults r s).products, q.local_id = A.local_id →
        q.status = Status.synced ∧ q.synced_at = some r.timestamp) ∧
    (∀ q ∈ (applySyncResults r s).products, q.local_id = B.local_id →
        q.status = Status.synced ∧ q.synced_at = some r.timestamp) ∧
    C ∈ (applySyncResults r s).products ∧
    C ∈ getUnsyncedProducts (applySyncResults r s) := by
  have hprod : (applySyncResults r s).products =
      runUpdated r.timestamp r.results.updated
        (runCreated r.timestamp r.results.created s.products) := rfl
  have hndC : ((runCreated r.timestamp r.results.created s.products).map
      (fun p => p.local_id)).Nodup := by
    rw [runCreated_map_local_id]; exact hnd
  have covered : ∀ p : LocalProduct, p ∈ s.products →
      (p.local_id ∈ createdIds r ∨ p.local_id ∈ updatedIds r) →
      statusSyncedAt p.local_id r.timestamp (applySyncResults r s).products := by
    intro p hp hcov
    rw [hprod]
    rcases hcov with hcov | hcov
    · exact runUpdated_preserves_statusSyncedAt
        (runCreated_establishes_statusSyncedAt hnd
          (List.mem_map_of_mem (fun p => p.local_id) hp) hcov)
    · refine runUpdated_establishes_statusSyncedAt hndC ?_ hcov
      rw [runCreated_map_local_id]
      exact List.mem_map_of_mem (fun p => p.local_id) hp
  have hCkeep : C ∈ (applySyncResults r s).products := by
    rw [hprod]
    exact mem_runUpdated_of_not_written
      (mem_runCreated_of_not_written hC hCnc) hCnu
  refine ⟨covered A hA hAcov, covered B hB hBcov, hCkeep, ?_⟩
  refine List.mem_filter.mpr ⟨hCkeep, ?_⟩
  rcases hCpend with h | h <;> simp [h]

/-- Witness for claim C7: three pending products, the SyncResult creates the
first, updates the second and reports an error for the third. -/
theorem partial_failure_isolation_witness :
    (((storeOf [mkProduct "a" none Status.ready,
        mkProduct "b" (some "rb") Status.modified,
        mkProduct "c" none Status.ready]).products.map
      (fun p => p.local_id)).Nodup ∧
     (mkProduct "c" none Status.ready).local_id ∉ createdIds
        { sync_id := "s1", timestamp := "ts"
          results := { created := [{ local_id := "a", remote_id := "ra" }]
                       updated := [{ local_id := "b", remote_id := "rb" }]
                       deleted := []
                       errors := [{ local_id := "c", error := "boom" }] } }) ∧
    ((∀ q ∈ (applySyncResults
        { sync_id := "s1", timestamp := "ts"
          results := { created := [{ local_id := "a", remote_id := "ra" }]
                       updated := [{ local_id := "b", remote_id := "rb" }]
                       deleted := []
                       errors := [{ local_id := "c", error := "boom" }] } }
        (storeOf [mkProduct "a" none Status.ready,
          mkProduct "b" (some "rb") Status.modified,
          mkProduct "c" none Status.ready])).products,
        q.local_id = (mkProduct "a" none Status.ready).local_id →
        q.status = Status.synced ∧ q.synced_at = some "ts") ∧
     (∀ q ∈ (applySyncResults
        { sync_id := "s1", timestamp := "ts"
          results := { created := [{ local_id := "a", remote_id := "ra" }]
                       updated := [{ local_id := "b", remote_id := "rb" }]
                       deleted := []
                       errors := [{ local_id := "c", error := "boom" }] } }
        (storeOf [mkProduct "a" none Status.ready,
          mkProduct "b" (some "rb") Status.modified,
          mkProduct "c" none Status.ready])).products,
        q.local_id = (mkProduct "b" (some "rb") Status.modified).local_id →
        q.status = Status.synced ∧ q.synced_at = some "ts") ∧
     mkProduct "c" none Status.ready ∈ (applySyncResults
        { sync_id := "s1", timestamp := "ts"
          results := { created := [{ local_id := "a", remote_id := "ra" }]
                       updated := [{ local_id := "b", remote_id := "rb" }]
                       deleted := []
                       errors := [{ local_id := "c", error := "boom" }] } }
        (storeOf [mkProduct "a" none Status.ready,
          mkProduct "b" (some "rb") Status.modified,
          mkProduct "c" none Status.ready])).products ∧
     mkProduct "c" none Status.ready ∈ getUnsyncedProducts (applySyncResults
        { sync_id := "s1", timestamp := "ts"
          results := { created := [{ local_id := "a", remote_id := "ra" }]
                       updated := [{ local_id := "b", remote_id := "rb" }]
                       deleted := []
                       errors := [{ local_id := "c", error := "boom" }] } }
        (storeOf [mkProduct "a" none Status.ready,
          mkProduct "b" (some "rb") Status.modified,
          mkProduct "c" none Status.ready]))) :=
  ⟨⟨by decide, by decide⟩,
    partial_failure_isolation _ _ _ _ _
      (by decide)
      (List.mem_cons_self _ _)
      (List.mem_cons_of_mem _ (List.mem_cons_self _ _))
      (List.mem_cons_of_mem _ (List.mem_cons_of_mem _ (List.mem_cons_self _ _)))
      (Or.inl rfl) (Or.inr rfl) (Or.inl rfl)
      (by decide) (by decide) (by decide)
      (Or.inl (by decide)) (Or.inr (by decide))
      (by decide) (by decide) (by decide)⟩

/-! Claims C2 and C4: sequences of LocalStoreManager operations.  An `Op`
records one public mutation together with the nondeterministic inputs the
source draws internally (generated id, current timestamp). -/

inductive Op where
  | create (input : ProductInput) (localId now : String)
  | update (localId : String) (u : ProductUpdates) (now : String)
  | markReady (localId now : String)
  | del (localId : String)
  | applyRes (r : SyncResult)

/-- Effect of one operation on the store (return values discarded). -/
def stepOp : Op → LocalStore → LocalStore
  | .create input localId now, s => (createProduct input localId now s).2
  | .update localId u now, s => (updateProduct localId u now s).2
  | .markReady localId now, s => (markReady localId now s).2
  | .del localId, s => (deleteProduct localId s).2
  | .applyRes r, s => applySyncResults r s

/-- Run a sequence of operations left to right. -/
def runOps (ops : List Op) (s : LocalStore) : LocalStore :=
  ops.foldl (fun s op => stepOp op s) s

theorem runOps_cons (op : Op) (ops : List Op) (s : LocalStore) :
    runOps (op :: ops) s = runOps ops (stepOp op s) := rfl

theorem runOps_append (ops₁ ops₂ : List Op) (s : LocalStore) :
    runOps (ops₁ ++ ops₂) s = runOps ops₂ (runOps ops₁ s) := by
  simp [runOps, List.foldl_append]

/-! Membership decompositions for each operation. -/

theorem mem_updateFirst {q : LocalProduct} {lid : String}
    {f : LocalProduct → LocalProduct} {ps ps' : List LocalProduct}
    {b : LocalProduct}
    (h : updateFirst lid f ps = some (b, ps')) (hq : q ∈ ps') :
    q ∈ ps ∨ ∃ p ∈ ps, p.local_id = lid ∧ q = f p := by
  induction ps generalizing ps' with
  | nil => cases h
  | cons p ps ih =>
    by_cases hp : p.local_id = lid
    · rw [updateFirst, if_pos hp] at h
      obtain ⟨h1, h2⟩ := Prod.mk.injEq _ _ _ _ ▸ Option.some.injEq _ _ ▸ h
      subst h2
      rcases List.mem_cons.mp hq with hh | hh
      · exact Or.inr ⟨p, List.mem_cons_self _ _, hp, hh⟩
      · exact Or.inl (List.mem_cons_of_mem _ hh)
    · rw [updateFirst, if_neg hp] at h
      cases hrec : updateFirst lid f ps with
      | none => rw [hrec] at h; cases h
      | some r =>
        rw [hrec] at h
        obtain ⟨h1, h2⟩ := Prod.mk.injEq _ _ _ _ ▸ Option.some.injEq _ _ ▸ h
        subst h2
        rcases List.mem_cons.mp hq with hh | hh
        · exact Or.inl (hh ▸ List.mem_cons_self _ _)
        · rcases ih (by rw [hrec, ← h1]) hh with h' | ⟨p', hp', hl', hq'⟩
          · exact Or.inl (List.mem_cons_of_mem _ h')
          · exact Or.inr ⟨p', List.mem_cons_of_mem _ hp', hl', hq'⟩

theorem mem_removeFirst {q : LocalProduct} {lid : String}
    {ps ps' : List LocalProduct}
    (h : removeFirst lid ps = some ps') (hq : q ∈ ps') : q ∈ ps := by
  induction ps generalizing ps' with
  | nil => cases h
  | cons p ps ih =>
    by_cases hp : p.local_id = lid
    · rw [removeFirst, if_pos hp] at h
      exact List.mem_cons_of_mem _ ((Option.some.injEq _ _ ▸ h) ▸ hq)
    · rw [removeFirst, if_neg hp] at h
      cases hrec : removeFirst lid ps with
      | none => rw [hrec] at h; cases h
      | some r =>
        rw [hrec] at h
        have : ps' = p :: r := (Option.some.injEq _ _ ▸ h).symm
        subst this
        rcases List.mem_cons.mp hq with hh | hh
        · exact hh ▸ List.mem_cons_self _ _
        · exact List.mem_cons_of_mem _ (ih hrec hh)

theorem mem_runCreated {q : LocalProduct} {ts : String} {cs : List SyncPair}
    {ps : List LocalProduct} (hq : q ∈ runCreated ts cs ps) :
    q ∈ ps ∨ (q.status = Status.synced ∧ q.remote_id ≠ none ∧
      q.synced_at = some ts ∧
      ∃ c ∈ cs, q.local_id = c.local_id ∧
        ∃ p ∈ ps, p.local_id = c.local_id) := by
  induction cs generalizing ps with
  | nil => exact Or.inl hq
  | cons c cs ih =>
    rw [runCreated_cons] at hq
    rcases ih hq with h | ⟨h1, h2, h3, c', hc', hl', p', hp', hpl'⟩
    · rcases mem_setFirst h with h' | ⟨p, hp, hpl, hqf⟩
      · exact Or.inl h'
      · subst hqf
        exact Or.inr ⟨rfl, by simp [cwrite], rfl,
          c, List.mem_cons_self _ _, by rw [local_id_cwrite]; exact hpl,
          p, hp, hpl⟩
    · rcases mem_setFirst hp' with h' | ⟨p, hp, hpl, hqf⟩
      · exact Or.inr ⟨h1, h2, h3, c', List.mem_cons_of_mem _ hc', hl',
          p', h', hpl'⟩
      · subst hqf
        exact Or.inr ⟨h1, h2, h3, c', List.mem_cons_of_mem _ hc', hl',
          p, hp, by rw [local_id_cwrite] at hpl'; exact hpl'⟩

theorem mem_runUpdated {q : LocalProduct} {ts : String} {us : List SyncPair}
    {ps : List LocalProduct} (hq : q ∈ runUpdated ts us ps) :
    q ∈ ps ∨ ∃ p ∈ ps, ∃ u ∈ us, p.local_id = u.local_id ∧
      q = uwrite ts p := by
  induction us generalizing ps with
  | nil => exact Or.inl hq
  | cons u us ih =>
    rw [runUpdated_cons] at hq
    rcases ih hq with h | ⟨p', hp', u', hu', hl', hq'⟩
    · rcases mem_setFirst h with h' | ⟨p, hp, hpl, hqf⟩
      · exact Or.inl h'
      · exact Or.inr ⟨p, hp, u, List.mem_cons_self _ _, hpl, hqf⟩
    · rcases mem_setFirst hp' with h' | ⟨p, hp, hpl, hqf⟩
      · exact Or.inr ⟨p', h', u', List.mem_cons_of_mem _ hu', hl', hq'⟩
      · subst hqf
        refine Or.inr ⟨p, hp, u', List.mem_cons_of_mem _ hu', ?_, ?_⟩
        · rw [local_id_uwrite] at hl'; exact hl'
        · rw [hq']; rfl

/-! Claim C2: the remote_id/status invariant over operation sequences. -/

/-- The lifecycle invariant of one product, worded as in the spec. -/
def invP (p : LocalProduct) : Prop :=
  (p.remote_id = none → p.status = Status.draft ∨ p.status = Status.ready) ∧
  (p.remote_id ≠ none → p.status = Status.synced ∨ p.status = Status.modified)

def storeInv (s : LocalStore) : Prop := ∀ p ∈ s.products, invP p

/-- Side conditions under which one operation preserves the invariant: no
caller-supplied `remote_id` on create or update, and `updated` entries of a
sync result only target products that already carry a `remote_id`. -/
def okOpC2 : Op → LocalStore → Prop
  | .create input _ _, _ => input.remote_id = none
  | .update _ u _, _ => u.remote_id = none
  | .markReady _ _, _ => True
  | .del _, _ => True
  | .applyRes r, s => ∀ u ∈ r.results.updated, ∀ p ∈ s.products,
      p.local_id = u.local_id → p.remote_id ≠ none

def okOpsC2 : List Op → LocalStore → Prop
  | [], _ => True
  | op :: ops, s => okOpC2 op s ∧ okOpsC2 ops (stepOp op s)

theorem invP_applyUpdates {u : ProductUpdates} (hu : u.remote_id = none)
    (now : String) {p : LocalProduct} (hp : invP p) :
    invP (applyUpdates u now p) := by
  have hrem : (applyUpdates u now p).remote_id = p.remote_id := by
    simp [applyUpdates, hu]
  cases hr : p.remote_id with
  | none =>
    have hst : (applyUpdates u now p).status = p.status := by
      simp [applyUpdates, hr, truthy]
    constructor
    · intro _
      rw [hst]
      exact hp.1 hr
    · intro hne
      exact absurd (hrem.trans hr) hne
  | some v =>
    have hne : p.remote_id ≠ none := by rw [hr]; exact fun h => by cases h
    constructor
    · intro h
      exact absurd (hrem.symm.trans h) (hr ▸ hne)
    · intro _
      by_cases hv : v = ""
      · have hst : (applyUpdates u now p).status = p.status := by
          simp [applyUpdates, hr, hv, truthy]
        rw [hst]
        exact hp.2 hne
      · have hst : (applyUpdates u now p).status = Status.modified := by
          simp [applyUpdates, hr, truthy, hv]
        rw [hst]
        exact Or.inr rfl

theorem storeInv_update {lid : String} {u : ProductUpdates} {now : String}
    {s : LocalStore} (hu : u.remote_id = none) (hs : storeInv s) :
    storeInv (updateProduct lid u now s).2 := by
  unfold updateProduct
  cases hu' : updateFirst lid (applyUpdates u now) s.products with
  | none => exact hs
  | some r =>
    intro q hq
    rcases mem_updateFirst hu' hq with h | ⟨p, hp, _, hq'⟩
    · exact hs q h
    · exact hq' ▸ invP_applyUpdates hu now (hs p hp)

theorem stepOp_preserves_inv (op : Op) (s : LocalStore)
    (hs : storeInv s) (hok : okOpC2 op s) : storeInv (stepOp op s) := by
  cases op with
  | create input localId now =>
    intro q hq
    rcases List.mem_append.mp hq with h | h
    · exact hs q h
    · have hq' : q = (createProduct input localId now s).1 := by
        rcases List.mem_singleton.mp h with h'
        exact h'
      constructor
      · intro _
        exact Or.inl (by rw [hq']; rfl)
      · intro hne
        exact absurd (by rw [hq']; exact hok) hne
  | update localId u now => exact storeInv_update hok hs
  | markReady localId now => exact storeInv_update rfl hs
  | del localId =>
    show storeInv (deleteProduct localId s).2
    unfold deleteProduct
    cases hr : removeFirst localId s.products with
    | none => exact hs
    | some ps' =>
      intro q hq
      exact hs q (mem_removeFirst hr hq)
  | applyRes r =>
    intro q hq
    have hq' : q ∈ runUpdated r.timestamp r.results.updated
        (runCreated r.timestamp r.results.created s.products) := hq
    have invC : ∀ x, x ∈ runCreated r.timestamp r.results.created s.products →
        invP x := by
      intro x hx
      rcases mem_runCreated hx with h | ⟨h1, h2, _, _⟩
      · exact hs x h
      · exact ⟨fun hn => absurd hn h2, fun _ => Or.inl h1⟩
    have remC : ∀ x, x ∈ runCreated r.timestamp r.results.created s.products →
        (∀ u ∈ r.results.updated, x.local_id = u.local_id →
          x.remote_id ≠ none) := by
      intro x hx u hu hl
      rcases mem_runCreated hx with h | ⟨_, h2, _, _⟩
      · exact hok u hu x h hl
      · exact h2
    rcases mem_runUpdated hq' with h | ⟨p, hp, u, hu, hl, hq''⟩
    · exact invC q h
    · have hrem : p.remote_id ≠ none := remC p hp u hu hl
      subst hq''
      exact ⟨fun hn => absurd hn hrem, fun _ => Or.inl rfl⟩

theorem storeInv_runOps (ops : List Op) (s : LocalStore)
    (hs : storeInv s) (hok : okOpsC2 ops s) : storeInv (runOps ops s) := by
  induction ops generalizing s with
  | nil => exact hs
  | cons op ops ih =>
    rw [runOps_cons]
    exact ih _ (stepOp_preserves_inv op s hs hok.1) hok.2

/-- Claim C2 (amended): for every sequence of LocalStoreManager operations
starting from the empty default store — provided createProduct inputs carry
no remote_id, updateProduct partial fields never include a remote_id, and
every local_id in an applySyncResults updated list targets only products
that already have a remote_id — a product without a remote_id never has
status `synced` or `modified`, and a product with a remote_id never has
status `draft` or `ready`.  The provisos are forced: the source protects
only `local_id` from the spread-in updates, and the updated loop stamps
`synced` without checking for a remote_id. -/
theorem remote_status_invariant (ops : List Op)
    (hok : okOpsC2 ops getDefaultStore) :
    ∀ p ∈ (runOps ops getDefaultStore).products,
      (p.remote_id = none →
        p.status = Status.draft ∨ p.status = Status.ready) ∧
      (p.remote_id ≠ none →
        p.status = Status.synced ∨ p.status = Status.modified) :=
  storeInv_runOps ops getDefaultStore (fun p hp => by cases hp) hok

/-- Sample createProduct input used by concrete operation sequences. -/
def sampleInput : ProductInput :=
  { name := "n"
    description := "d"
    category_id := "c"
    price := 1
    delivery_type := .download }

/-- Witness for claim C2: a single create yields a draft without remote_id,
satisfying the invariant. -/
theorem remote_status_invariant_witness :
    okOpsC2 [Op.create sampleInput "a" "t0"] getDefaultStore ∧
    ∀ p ∈ (runOps [Op.create sampleInput "a" "t0"]
        getDefaultStore).products,
      (p.remote_id = none →
        p.status = Status.draft ∨ p.status = Status.ready) ∧
      (p.remote_id ≠ none →
        p.status = Status.synced ∨ p.status = Status.modified) :=
  ⟨⟨rfl, trivial⟩, remote_status_invariant _ ⟨rfl, trivial⟩⟩

/-- Counterexample to claim C2 as stated: `updateProduct` does not protect
`remote_id`, so create followed by an update whose partial fields contain
`remote_id: "r1"` produces a product that has a remote_id while still in
status `draft`. -/
theorem remote_status_invariant_cex :
    ∃ p ∈ (runOps
      [Op.create sampleInput "a" "t0",
       Op.update "a" { remote_id := some "r1" } "t1"]
      getDefaultStore).products,
      p.remote_id ≠ none ∧
        (p.status = Status.draft ∨ p.status = Status.ready) := by
  decide

/-! Claim C4: immutability of identifiers over operation sequences. -/

/-- The id a create operation issues, if any. -/
def opCreateId : Op → Option String
  | .create _ localId _ => some localId
  | _ => none

/-- All ids issued by create operations of a sequence, in order. -/
def createIds (ops : List Op) : List String := ops.filterMap opCreateId

/-- Side conditions under which remote ids persist: no caller-supplied
`remote_id` in updates, and `created` entries of a sync result only target
products that do not yet have a `remote_id`. -/
def okOpC4 : Op → LocalStore → Prop
  | .create _ _ _, _ => True
  | .update _ u _, _ => u.remote_id = none
  | .markReady _ _, _ => True
  | .del _, _ => True
  | .applyRes r, s => ∀ c ∈ r.results.created, ∀ p ∈ s.products,
      p.local_id = c.local_id → p.remote_id = none

def okOpsC4 : List Op → LocalStore → Prop
  | [], _ => True
  | op :: ops, s => okOpC4 op s ∧ okOpsC4 ops (stepOp op s)

theorem local_id_applyUpdates (u : ProductUpdates) (now : String)
    (p : LocalProduct) : (applyUpdates u now p).local_id = p.local_id := rfl

theorem remote_id_applyUpdates {u : ProductUpdates} (hu : u.remote_id = none)
    (now : String) (p : LocalProduct) :
    (applyUpdates u now p).remote_id = p.remote_id := by
  simp [applyUpdates, hu]

theorem updateFirst_map_local {lid : String}
    {f : LocalProduct → LocalProduct}
    (hf : ∀ p, (f p).local_id = p.local_id)
    {ps ps' : List LocalProduct} {b : LocalProduct}
    (h : updateFirst lid f ps = some (b, ps')) :
    ps'.map (fun p => p.local_id) = ps.map (fun p => p.local_id) := by
  induction ps generalizing ps' with
  | nil => cases h
  | cons p ps ih =>
    by_cases hp : p.local_id = lid
    · rw [updateFirst, if_pos hp] at h
      obtain ⟨h1, h2⟩ := Prod.mk.injEq _ _ _ _ ▸ Option.some.injEq _ _ ▸ h
      subst h2
      simp [hf]
    · rw [updateFirst, if_neg hp] at h
      cases hrec : updateFirst lid f ps with
      | none => rw [hrec] at h; cases h
      | some r =>
        rw [hrec] at h
        obtain ⟨h1, h2⟩ := Prod.mk.injEq _ _ _ _ ▸ Option.some.injEq _ _ ▸ h
        subst h2
        simp only [List.map_cons]
        rw [ih (by rw [hrec, ← h1])]

theorem updateProduct_map_local (lid : String) (u : ProductUpdates)
    (now : String) (s : LocalStore) :
    ((updateProduct lid u now s).2).products.map (fun p => p.local_id) =
      s.products.map (fun p => p.local_id) := by
  unfold updateProduct
  cases hu : updateFirst lid (applyUpdates u now) s.products with
  | none => rfl
  | some r =>
    exact updateFirst_map_local (local_id_applyUpdates u now) (by rw [hu])

theorem removeFirst_sublist {lid : String} {ps ps' : List LocalProduct}
    (h : removeFirst lid ps = some ps') : ps'.Sublist ps := by
  induction ps generalizing ps' with
  | nil => cases h
  | cons p ps ih =>
    by_cases hp : p.local_id = lid
    · rw [removeFirst, if_pos hp] at h
      exact (Option.some.injEq _ _ ▸ h) ▸ List.Sublist.cons p (List.Sublist.refl ps)
    · rw [removeFirst, if_neg hp] at h
      cases hrec : removeFirst lid ps with
      | none => rw [hrec] at h; cases h
      | some r =>
        rw [hrec] at h
        have : ps' = p :: r := (Option.some.injEq _ _ ▸ h).symm
        subst this
        exact List.Sublist.cons₂ p (ih hrec)

/-- Remote ids already present for a given id persist through one
restricted operation that does not create that id. -/
theorem stepOp_preserves_remote (op : Op) (s : LocalStore) (l r' : String)
    (hok : okOpC4 op s) (hne : opCreateId op ≠ some l)
    (hbase : ∀ p ∈ s.products, p.local_id = l → p.remote_id = some r') :
    ∀ q ∈ (stepOp op s).products, q.local_id = l → q.remote_id = some r' := by
  cases op with
  | create input localId now =>
    intro q hq hl
    rcases List.mem_append.mp hq with h | h
    · exact hbase q h hl
    · exfalso
      have h' := List.mem_singleton.mp h
      have hll : localId = l := by rw [h'] at hl; exact hl
      exact hne (by rw [hll]; rfl)
  | update localId u now =>
    have key : ∀ q ∈ ((updateProduct localId u now s).2).products,
        q.local_id = l → q.remote_id = some r' := by
      unfold updateProduct
      cases hu : updateFirst localId (applyUpdates u now) s.products with
      | none => exact hbase
      | some r =>
        intro q hq hl
        rcases mem_updateFirst hu hq with h | ⟨p, hp, _, hq'⟩
        · exact hbase q h hl
        · subst hq'
          rw [remote_id_applyUpdates hok now p]
          exact hbase p hp hl
    exact key
  | markReady localId now =>
    have key : ∀ q ∈ ((updateProduct localId readyUpdates now s).2).products,
        q.local_id = l → q.remote_id = some r' := by
      unfold updateProduct
      cases hu : updateFirst localId (applyUpdates readyUpdates now) s.products with
      | none => exact hbase
      | some r =>
        intro q hq hl
        rcases mem_updateFirst hu hq with h | ⟨p, hp, _, hq'⟩
        · exact hbase q h hl
        · subst hq'
          rw [remote_id_applyUpdates rfl now p]
          exact hbase p hp hl
    exact key
  | del localId =>
    have key : ∀ q ∈ ((deleteProduct localId s).2).products,
        q.local_id = l → q.remote_id = some r' := by
      unfold deleteProduct
      cases hr : removeFirst localId s.products with
      | none => exact hbase
      | some ps' =>
        intro q hq hl
        exact hbase q (mem_removeFirst hr hq) hl
    exact key
  | applyRes r =>
    have hafterC : ∀ q ∈ runCreated r.timestamp r.results.created s.products,
        q.local_id = l → q.remote_id = some r' := by
      intro q hq hl
      rcases mem_runCreated hq with h | ⟨_, _, _, c, hc, hlc, p, hp, hpl⟩
      · exact hbase q h hl
      · exfalso
        have h1 : p.remote_id = none := hok c hc p hp hpl
        have h2 : p.remote_id = some r' :=
          hbase p hp (by rw [hpl, ← hlc]; exact hl)
        rw [h1] at h2
        cases h2
    intro q hq hl
    rcases mem_runUpdated hq with h | ⟨p, hp, u, hu, hl', hq'⟩
    · exact hafterC q h hl
    · subst hq'
      show p.remote_id = some r'
      exact hafterC p hp hl

def localIds (s : LocalStore) : List String :=
  s.products.map (fun p => p.local_id)

theorem localIds_create (input : ProductInput) (localId now : String)
    (s : LocalStore) :
    localIds (stepOp (Op.create input localId now) s) =
      localIds s ++ [localId] := by
  simp [stepOp, createProduct, localIds]

theorem localIds_update (localId : String) (u : ProductUpdates)
    (now : String) (s : LocalStore) :
    localIds (stepOp (Op.update localId u now) s) = localIds s :=
  updateProduct_map_local localId u now s

theorem localIds_markReady (localId now : String) (s : LocalStore) :
    localIds (stepOp (Op.markReady localId now) s) = localIds s :=
  updateProduct_map_local localId readyUpdates now s

theorem localIds_applyRes (r : SyncResult) (s : LocalStore) :
    localIds (stepOp (Op.applyRes r) s) = localIds s := by
  show (applySyncResults r s).products.map (fun p => p.local_id) = _
  simp only [applySyncResults]
  rw [runUpdated_map_local_id, runCreated_map_local_id]
  rfl

theorem deleteProduct_sublist (localId : String) (s : LocalStore) :
    ((deleteProduct localId s).2).products.Sublist s.products := by
  unfold deleteProduct
  cases hr : removeFirst localId s.products with
  | none => exact List.Sublist.refl _
  | some ps' => exact removeFirst_sublist hr

theorem localIds_del_sublist (localId : String) (s : LocalStore) :
    (localIds (stepOp (Op.del localId) s)).Sublist (localIds s) :=
  List.Sublist.map _ (deleteProduct_sublist localId s)

theorem createIds_cons (op : Op) (ops : List Op) :
    createIds (op :: ops) =
      match opCreateId op with
      | some lid => lid :: createIds ops
      | none => createIds ops := by
  simp [createIds, List.filterMap_cons]
  cases opCreateId op <;> simp

/-- Main induction for claim C4: id bookkeeping and remote persistence. -/
theorem c4_main (ops : List Op) (s : LocalStore)
    (hok : okOpsC4 ops s) (hndc : (createIds ops).Nodup)
    (hnds : (localIds s).Nodup)
    (hdisj : ∀ i ∈ localIds s, i ∉ createIds ops) :
    (localIds (runOps ops s)).Nodup ∧
    (∀ i ∈ localIds (runOps ops s), i ∈ localIds s ∨ i ∈ createIds ops) ∧
    (∀ l r', l ∉ createIds ops →
      (∀ p ∈ s.products, p.local_id = l → p.remote_id = some r') →
      ∀ q ∈ (runOps ops s).products, q.local_id = l → q.remote_id = some r') := by
  induction ops generalizing s with
  | nil =>
    exact ⟨hnds, fun i hi => Or.inl hi, fun l r' _ hb => hb⟩
  | cons op ops ih =>
    rw [runOps_cons]
    cases op with
    | create input localId now =>
      have hcid : createIds (Op.create input localId now :: ops) =
          localId :: createIds ops := rfl
      rw [hcid] at hndc hdisj
      have hlid_not_old : localId ∉ localIds s := fun h =>
        hdisj localId h (List.mem_cons_self _ _)
      have hlid_not_rest : localId ∉ createIds ops :=
        (List.nodup_cons.mp hndc).1
      have hids : localIds (stepOp (Op.create input localId now) s) =
          localIds s ++ [localId] := localIds_create input localId now s
      have hnds' : (localIds (stepOp (Op.create input localId now) s)).Nodup := by
        rw [hids]
        refine List.nodup_append.mpr ⟨hnds, List.nodup_singleton _, ?_⟩
        intro a ha hb
        rw [List.mem_singleton] at hb
        exact hlid_not_old (hb ▸ ha)
      have hdisj' : ∀ i ∈ localIds (stepOp (Op.create input localId now) s),
          i ∉ createIds ops := by
        intro i hi
        rw [hids] at hi
        rcases List.mem_append.mp hi with h | h
        · exact fun hc => hdisj i h (List.mem_cons_of_mem _ hc)
        · rw [List.mem_singleton] at h
          exact h ▸ hlid_not_rest
      obtain ⟨ih1, ih2, ih3⟩ :=
        ih (stepOp (Op.create input localId now) s) hok.2
          (List.nodup_cons.mp hndc).2 hnds' hdisj'
      refine ⟨ih1, ?_, ?_⟩
      · intro i hi
        rcases ih2 i hi with h | h
        · rw [hids] at h
          rcases List.mem_append.mp h with h' | h'
          · exact Or.inl h'
          · rw [List.mem_singleton] at h'
            exact Or.inr (hcid ▸ (h' ▸ List.mem_cons_self _ _))
        · exact Or.inr (hcid ▸ List.mem_cons_of_mem _ h)
      · intro l r' hl hbase
        rw [hcid] at hl
        have hll : localId ≠ l := fun h =>
          hl (h ▸ List.mem_cons_self _ _)
        refine ih3 l r' (fun h => hl (List.mem_cons_of_mem _ h)) ?_
        exact stepOp_preserves_remote _ s l r' trivial
          (fun h => hll (Option.some.injEq _ _ ▸ h)) hbase
    | update localId u now =>
      have hcid : createIds (Op.update localId u now :: ops) =
          createIds ops := rfl
      rw [hcid] at hndc hdisj
      have hids := localIds_update localId u now s
      obtain ⟨ih1, ih2, ih3⟩ := ih _ hok.2 hndc (hids ▸ hnds)
        (fun i hi => hdisj i (hids ▸ hi))
      refine ⟨ih1, ?_, ?_⟩
      · intro i hi
        rcases ih2 i hi with h | h
        · exact Or.inl (hids ▸ h)
        · exact Or.inr (hcid ▸ h)
      · intro l r' hl hbase
        rw [hcid] at hl
        refine ih3 l r' hl ?_
        exact stepOp_preserves_remote _ s l r' hok.1
          (fun h => by cases h) hbase
    | markReady localId now =>
      have hcid : createIds (Op.markReady localId now :: ops) =
          createIds ops := rfl
      rw [hcid] at hndc hdisj
      have hids := localIds_markReady localId now s
      obtain ⟨ih1, ih2, ih3⟩ := ih _ hok.2 hndc (hids ▸ hnds)
        (fun i hi => hdisj i (hids ▸ hi))
      refine ⟨ih1, ?_, ?_⟩
      · intro i hi
        rcases ih2 i hi with h | h
        · exact Or.inl (hids ▸ h)
        · exact Or.inr (hcid ▸ h)
      · intro l r' hl hbase
        rw [hcid] at hl
        refine ih3 l r' hl ?_
        exact stepOp_preserves_remote _ s l r' trivial
          (fun h => by cases h) hbase
    | del localId =>
      have hcid : createIds (Op.del localId :: ops) = createIds ops := rfl
      rw [hcid] at hndc hdisj
      have hsub := localIds_del_sublist localId s
      obtain ⟨ih1, ih2, ih3⟩ := ih _ hok.2 hndc (hnds.sublist hsub)
        (fun i hi => hdisj i (hsub.subset hi))
      refine ⟨ih1, ?_, ?_⟩
      · intro i hi
        rcases ih2 i hi with h | h
        · exact Or.inl (hsub.subset h)
        · exact Or.inr (hcid ▸ h)
      · intro l r' hl hbase
        rw [hcid] at hl
        refine ih3 l r' hl ?_
        exact stepOp_preserves_remote _ s l r' trivial
          (fun h => by cases h) hbase
    | applyRes r =>
      have hcid : createIds (Op.applyRes r :: ops) = createIds ops := rfl
      rw [hcid] at hndc hdisj
      have hids := localIds_applyRes r s
      obtain ⟨ih1, ih2, ih3⟩ := ih _ hok.2 hndc (hids ▸ hnds)
        (fun i hi => hdisj i (hids ▸ hi))
      refine ⟨ih1, ?_, ?_⟩
      · intro i hi
        rcases ih2 i hi with h | h
        · exact Or.inl (hids ▸ h)
        · exact Or.inr (hcid ▸ h)
      · intro l r' hl hbase
        rw [hcid] at hl
        refine ih3 l r' hl ?_
        exact stepOp_preserves_remote _ s l r' hok.1
          (fun h => by cases h) hbase

theorem okOpsC4_append (ops₁ ops₂ : List Op) (s : LocalStore)
    (h : okOpsC4 (ops₁ ++ ops₂) s) :
    okOpsC4 ops₁ s ∧ okOpsC4 ops₂ (runOps ops₁ s) := by
  induction ops₁ generalizing s with
  | nil => exact ⟨trivial, h⟩
  | cons op ops ih =>
    obtain ⟨h1, h2⟩ := h
    obtain ⟨h3, h4⟩ := ih (stepOp op s) h2
    exact ⟨⟨h1, h3⟩, h4⟩

theorem createIds_append (ops₁ ops₂ : List Op) :
    createIds (ops₁ ++ ops₂) = createIds ops₁ ++ createIds ops₂ := by
  simp [createIds, List.filterMap_append]

theorem eq_of_mem_nodup_local {ps : List LocalProduct}
    (hnd : (ps.map (fun p => p.local_id)).Nodup) {p q : LocalProduct}
    (hp : p ∈ ps) (hq : q ∈ ps) (h : p.local_id = q.local_id) : p = q := by
  induction ps with
  | nil => cases hp
  | cons a l ih =>
    rw [List.map_cons, List.nodup_cons] at hnd
    rcases List.mem_cons.mp hp with hp' | hp' <;>
      rcases List.mem_cons.mp hq with hq' | hq'
    · rw [hp', hq']
    · exfalso
      apply hnd.1
      subst hp'
      rw [h]
      exact List.mem_map_of_mem _ hq'
    · exfalso
      apply hnd.1
      subst hq'
      rw [← h]
      exact List.mem_map_of_mem _ hp'
    · exact ih hnd.2 hp' hq'

/-- Claim C4 (amended): (1) no updateProduct call ever changes any
product's local_id, even when the partial fields contain one — stated as
preservation of the positional local_id list, unconditionally; (2) provided
the create operations of a sequence issue pairwise distinct ids (the source
draws them from time plus randomness), no two live products share a
local_id; (3) provided additionally that updateProduct partial fields never
contain a remote_id and applySyncResults created entries only target
products without a remote_id, a remote_id, once set, is never changed by
any later operation.  The provisos of (3) are forced: the source protects
only local_id from the spread, and the created loop overwrites remote_id
unconditionally. -/
theorem local_remote_id_immutability (ops₁ ops₂ : List Op)
    (hok : okOpsC4 (ops₁ ++ ops₂) getDefaultStore)
    (hndc : (createIds (ops₁ ++ ops₂)).Nodup) :
    (∀ (s : LocalStore) (lid : String) (u : ProductUpdates) (now : String),
      ((updateProduct lid u now s).2).products.map (fun p => p.local_id) =
        s.products.map (fun p => p.local_id)) ∧
    ((runOps (ops₁ ++ ops₂) getDefaultStore).products.map
        (fun p => p.local_id)).Nodup ∧
    (∀ p ∈ (runOps ops₁ getDefaultStore).products, ∀ r',
      p.remote_id = some r' →
      ∀ q ∈ (runOps (ops₁ ++ ops₂) getDefaultStore).products,
        q.local_id = p.local_id → q.remote_id = some r') := by
  obtain ⟨hok1, hok2⟩ := okOpsC4_append ops₁ ops₂ getDefaultStore hok
  rw [createIds_append] at hndc
  obtain ⟨hndc1, hndc2, hdisjc⟩ := List.nodup_append.mp hndc
  obtain ⟨hnds1, hmem1, _⟩ := c4_main ops₁ getDefaultStore hok1 hndc1
    List.nodup_nil (fun i hi => absurd hi (List.not_mem_nil i))
  have hsub1 : ∀ i ∈ localIds (runOps ops₁ getDefaultStore),
      i ∈ createIds ops₁ := fun i hi =>
    (hmem1 i hi).resolve_left (fun h => absurd h (List.not_mem_nil i))
  have hdisj1 : ∀ i ∈ localIds (runOps ops₁ getDefaultStore),
      i ∉ createIds ops₂ := fun i hi => hdisjc (hsub1 i hi)
  obtain ⟨hnds2, _, hpers⟩ := c4_main ops₂ (runOps ops₁ getDefaultStore)
    hok2 hndc2 hnds1 hdisj1
  refine ⟨fun s lid u now => updateProduct_map_local lid u now s, ?_, ?_⟩
  · rw [runOps_append]
    exact hnds2
  · intro p hp r' hrem q hq hl
    rw [runOps_append] at hq
    have hbase : ∀ x ∈ (runOps ops₁ getDefaultStore).products,
        x.local_id = p.local_id → x.remote_id = some r' := by
      intro x hx hxl
      rw [eq_of_mem_nodup_local hnds1 hx hp hxl]
      exact hrem
    have hlmem : p.local_id ∈ localIds (runOps ops₁ getDefaultStore) :=
      List.mem_map_of_mem _ hp
    exact hpers p.local_id r' (hdisj1 _ hlmem) hbase q hq hl

/-- Sync result creating product a with remote id r1, used by the C4
witness and counterexample inputs. -/
def w4res : SyncResult :=
  { sync_id := "s1"
    timestamp := "t1"
    results := { created := [{ local_id := "a", remote_id := "r1" }]
                 updated := []
                 deleted := []
                 errors := [] } }

/-- Witness for claim C4: create one product, then apply a sync result that
assigns it remote id r1; the remote id then persists. -/
theorem local_remote_id_immutability_witness :
    (okOpsC4 ([Op.create sampleInput "a" "t0"] ++ [Op.applyRes w4res])
        getDefaultStore ∧
      (createIds ([Op.create sampleInput "a" "t0"] ++
        [Op.applyRes w4res])).Nodup) ∧
    ((∀ (s : LocalStore) (lid : String) (u : ProductUpdates) (now : String),
      ((updateProduct lid u now s).2).products.map (fun p => p.local_id) =
        s.products.map (fun p => p.local_id)) ∧
    ((runOps ([Op.create sampleInput "a" "t0"] ++ [Op.applyRes w4res])
        getDefaultStore).products.map (fun p => p.local_id)).Nodup ∧
    (∀ p ∈ (runOps [Op.create sampleInput "a" "t0"]
        getDefaultStore).products, ∀ r',
      p.remote_id = some r' →
      ∀ q ∈ (runOps ([Op.create sampleInput "a" "t0"] ++
          [Op.applyRes w4res]) getDefaultStore).products,
        q.local_id = p.local_id → q.remote_id = some r')) :=
  have hok : okOpsC4 ([Op.create sampleInput "a" "t0"] ++
      [Op.applyRes w4res]) getDefaultStore :=
    ⟨trivial,
      (fun c hc p hp hl => by
        have hc' := List.mem_singleton.mp hc
        have hp' := List.mem_singleton.mp hp
        subst hc'
        subst hp'
        rfl),
      trivial⟩
  ⟨⟨hok, by decide⟩,
    local_remote_id_immutability [Op.create sampleInput "a" "t0"]
      [Op.applyRes w4res] hok (by decide)⟩

/-- Counterexample to claim C4 as stated: after the product a has been
given remote id r1 by a sync result, an updateProduct whose partial fields
contain remote_id r2 silently overwrites it — remote_id is not protected
the way local_id is. -/
theorem remote_id_overwrite_cex :
    (runOps ([Op.create sampleInput "a" "t0"] ++ [Op.applyRes w4res])
      getDefaultStore).products.map (fun p => p.remote_id) = [some "r1"] ∧
    (runOps ([Op.create sampleInput "a" "t0"] ++ [Op.applyRes w4res] ++
        [Op.update "a" { remote_id := some "r2" } "t2"])
      getDefaultStore).products.map (fun p => p.remote_id) = [some "r2"] := by
  decide

/-! Claim C8: persistence round trip.  `save` writes
`JSON.stringify(this.store)` to the store path and `load` replaces the
in-memory store wholesale with `JSON.parse` of the file.  The file system is
modelled as a map from paths to parsed JSON documents (for documents written
by `JSON.stringify`, parsing the written text recovers exactly the
stringified value, so the string layer is transparent); the encoders below
mirror the field layout of the interfaces, with absent optional fields
omitted exactly as `JSON.stringify` drops `undefined` properties. -/

def optField (k : String) : Option Json → List (String × Json)
  | none => []
  | some v => [(k, v)]

def jsonLookup (k : String) : List (String × Json) → Option Json
  | [] => none
  | (k', v) :: rest => if k' = k then some v else jsonLookup k rest

def DeliveryType.toStr : DeliveryType → String
  | .download => "download"
  | .repo => "repo"
  | .api => "api"
  | .manual => "manual"

def decodeDeliveryType : String → Option DeliveryType
  | "download" => some .download
  | "repo" => some .repo
  | "api" => some .api
  | "manual" => some .manual
  | _ => none

def Status.toStr : Status → String
  | .draft => "draft"
  | .ready => "ready"
  | .synced => "synced"
  | .modified => "modified"

def decodeStatus : String → Option Status
  | "draft" => some .draft
  | "ready" => some .ready
  | "synced" => some .synced
  | "modified" => some .modified
  | _ => none

def Direction.toStr : Direction → String
  | .push => "push"
  | .pull => "pull"

def decodeDirection : String → Option Direction
  | "push" => some .push
  | "pull" => some .pull
  | _ => none

def asStr : Option Json → Option String
  | some (.str s) => some s
  | _ => none

def asNum : Option Json → Option Int
  | some (.num n) => some n
  | _ => none

def asOptStr : Option Json → Option (Option String)
  | none => some none
  | some (.str s) => some (some s)
  | _ => none

def asOptNum : Option Json → Option (Option Int)
  | none => some none
  | some (.num n) => some (some n)
  | _ => none

def asOptJson : Option Json → Option (Option Json)
  | none => some none
  | some v => some (some v)

def productFields (p : LocalProduct) : List (String × Json) :=
  [("local_id", .str p.local_id)] ++
    optField "remote_id" (p.remote_id.map Json.str) ++
    [("name", .str p.name), ("description", .str p.description),
     ("category_id", .str p.category_id), ("price", .num p.price),
     ("delivery_type", .str p.delivery_type.toStr)] ++
    optField "delivery_payload" p.delivery_payload ++
    optField "content_hash" (p.content_hash.map Json.str) ++
    optField "file_size_bytes" (p.file_size_bytes.map Json.num) ++
    [("status", .str p.status.toStr), ("created_at", .str p.created_at),
     ("updated_at", .str p.updated_at)] ++
    optField "synced_at" (p.synced_at.map Json.str)

def encodeProduct (p : LocalProduct) : Json := .obj (productFields p)

/-- First half of the product fields (identity and content); the
delivery_type string is returned undecoded. -/
def decodeProductA (fs : List (String × Json)) :
    Option (String × Option String × String × String × String × Int ×
      String × Option Json) := do
  let lid ← asStr (jsonLookup "local_id" fs)
  let rid ← asOptStr (jsonLookup "remote_id" fs)
  let nm ← asStr (jsonLookup "name" fs)
  let ds ← asStr (jsonLookup "description" fs)
  let cat ← asStr (jsonLookup "category_id" fs)
  let pr ← asNum (jsonLookup "price" fs)
  let dts ← asStr (jsonLookup "delivery_type" fs)
  let pay ← asOptJson (jsonLookup "delivery_payload" fs)
  some (lid, rid, nm, ds, cat, pr, dts, pay)

/-- Second half of the product fields (integrity, lifecycle, timestamps);
the status string is returned undecoded. -/
def decodeProductB (fs : List (String × Json)) :
    Option (Option String × Option Int × String × String × String ×
      Option String) := do
  let ch ← asOptStr (jsonLookup "content_hash" fs)
  let fsb ← asOptNum (jsonLookup "file_size_bytes" fs)
  let sts ← asStr (jsonLookup "status" fs)
  let ca ← asStr (jsonLookup "created_at" fs)
  let ua ← asStr (jsonLookup "updated_at" fs)
  let sa ← asOptStr (jsonLookup "synced_at" fs)
  some (ch, fsb, sts, ca, ua, sa)

def decodeProduct : Json → Option LocalProduct
  | .obj fs => do
    let a ← decodeProductA fs
    let b ← decodeProductB fs
    let dt ← decodeDeliveryType a.2.2.2.2.2.2.1
    let st ← decodeStatus b.2.2.1
    some {
      local_id := a.1
      remote_id := a.2.1
      name := a.2.2.1
      description := a.2.2.2.1
      category_id := a.2.2.2.2.1
      price := a.2.2.2.2.2.1
      delivery_type := dt
      delivery_payload := a.2.2.2.2.2.2.2
      content_hash := b.1
      file_size_bytes := b.2.1
      status := st
      created_at := b.2.2.2.1
      updated_at := b.2.2.2.2.1
      synced_at := b.2.2.2.2.2
    }
  | _ => none

set_option maxHeartbeats 1600000 in
theorem decodeProductA_fields (p : LocalProduct) :
    decodeProductA (productFields p) = some (p.local_id, p.remote_id,
      p.name, p.description, p.category_id, p.price,
      p.delivery_type.toStr, p.delivery_payload) := by
  cases p with
  | mk lid rid nm ds cat pr dt pay ch fsb st ca ua sa =>
    cases rid <;> cases pay <;> cases ch <;> cases fsb <;> cases sa <;> rfl

set_option maxHeartbeats 1600000 in
theorem decodeProductB_fields (p : LocalProduct) :
    decodeProductB (productFields p) = some (p.content_hash,
      p.file_size_bytes, p.status.toStr, p.created_at, p.updated_at,
      p.synced_at) := by
  cases p with
  | mk lid rid nm ds cat pr dt pay ch fsb st ca ua sa =>
    cases rid <;> cases pay <;> cases ch <;> cases fsb <;> cases sa <;> rfl

theorem decodeProduct_obj (fs : List (String × Json)) :
    decodeProduct (.obj fs) = (do
      let a ← decodeProductA fs
      let b ← decodeProductB fs
      let dt ← decodeDeliveryType a.2.2.2.2.2.2.1
      let st ← decodeStatus b.2.2.1
      some {
        local_id := a.1
        remote_id := a.2.1
        name := a.2.2.1
        description := a.2.2.2.1
        category_id := a.2.2.2.2.1
        price := a.2.2.2.2.2.1
        delivery_type := dt
        delivery_payload := a.2.2.2.2.2.2.2
        content_hash := b.1
        file_size_bytes := b.2.1
        status := st
        created_at := b.2.2.2.1
        updated_at := b.2.2.2.2.1
        synced_at := b.2.2.2.2.2
      }) := rfl

theorem decodeProduct_encodeProduct (p : LocalProduct) :
    decodeProduct (encodeProduct p) = some p := by
  cases p with
  | mk lid rid nm ds cat pr dt pay ch fsb st ca ua sa =>
    cases dt <;> cases st <;>
      simp only [encodeProduct] <;>
      rw [decodeProduct_obj, decodeProductA_fields, decodeProductB_fields] <;>
      rfl

def encodeStrPairs (links : List (String × String)) : List (String × Json) :=
  links.map (fun kv => (kv.1, Json.str kv.2))

def decodeStrPairs : List (String × Json) → Option (List (String × String))
  | [] => some []
  | (k, .str v) :: rest => (decodeStrPairs rest).map (fun r => (k, v) :: r)
  | _ => none

theorem decodeStrPairs_encodeStrPairs (links : List (String × String)) :
    decodeStrPairs (encodeStrPairs links) = some links := by
  induction links with
  | nil => rfl
  | cons kv rest ih =>
    cases kv with
    | mk k v =>
      show (decodeStrPairs (encodeStrPairs rest)).map
        (fun r => (k, v) :: r) = some ((k, v) :: rest)
      rw [ih]
      rfl

def asOptLinks : Option Json → Option (Option (List (String × String)))
  | none => some none
  | some (.obj fs) => (decodeStrPairs fs).map some
  | _ => none

def encodeProfile (pr : StoreProfile) : Json :=
  .obj (optField "name" (pr.name.map Json.str) ++
    optField "tagline" (pr.tagline.map Json.str) ++
    optField "description" (pr.description.map Json.str) ++
    optField "logo_url" (pr.logo_url.map Json.str) ++
    optField "banner_url" (pr.banner_url.map Json.str) ++
    optField "social_links"
      (pr.social_links.map (fun links => Json.obj (encodeStrPairs links))))

def decodeProfile : Json → Option StoreProfile
  | .obj fs => do
    let nm ← asOptStr (jsonLookup "name" fs)
    let tg ← asOptStr (jsonLookup "tagline" fs)
    let ds ← asOptStr (jsonLookup "description" fs)
    let lg ← asOptStr (jsonLookup "logo_url" fs)
    let bn ← asOptStr (jsonLookup "banner_url" fs)
    let sl ← asOptLinks (jsonLookup "social_links" fs)
    some {
      name := nm
      tagline := tg
      description := ds
      logo_url := lg
      banner_url := bn
      social_links := sl
    }
  | _ => none

theorem decodeProfile_encodeProfile (pr : StoreProfile) :
    decodeProfile (encodeProfile pr) = some pr := by
  cases pr with
  | mk nm tg ds lg bn sl =>
    cases nm <;> cases tg <;> cases ds <;> cases lg <;> cases bn <;>
      cases sl <;>
      simp [encodeProfile, decodeProfile, optField, jsonLookup, asOptStr,
        asOptLinks, decodeStrPairs_encodeStrPairs]

def encodeHistEntry (e : SyncHistoryEntry) : Json :=
  .obj [("id", .str e.id), ("direction", .str e.direction.toStr),
    ("timestamp", .str e.timestamp),
    ("products_synced", .num (Int.ofNat e.products_synced))]

def decodeHistEntry : Json → Option SyncHistoryEntry
  | .obj fs => do
    let i ← asStr (jsonLookup "id" fs)
    let ds ← asStr (jsonLookup "direction" fs)
    let d ← decodeDirection ds
    let t ← asStr (jsonLookup "timestamp" fs)
    let n ← asNum (jsonLookup "products_synced" fs)
    let k ← n.toNat'
    some { id := i, direction := d, timestamp := t, products_synced := k }
  | _ => none

theorem decodeHistEntry_encodeHistEntry (e : SyncHistoryEntry) :
    decodeHistEntry (encodeHistEntry e) = some e := by
  cases e with
  | mk i d t n => cases d <;> rfl

def decodeProducts : List Json → Option (List LocalProduct)
  | [] => some []
  | j :: js => do
    let p ← decodeProduct j
    let ps ← decodeProducts js
    some (p :: ps)

theorem decodeProducts_map (ps : List LocalProduct) :
    decodeProducts (ps.map encodeProduct) = some ps := by
  induction ps with
  | nil => rfl
  | cons p ps ih =>
    simp [decodeProducts, decodeProduct_encodeProduct, ih]

def decodeHistList : List Json → Option (List SyncHistoryEntry)
  | [] => some []
  | j :: js => do
    let e ← decodeHistEntry j
    let es ← decodeHistList js
    some (e :: es)

theorem decodeHistList_map (es : List SyncHistoryEntry) :
    decodeHistList (es.map encodeHistEntry) = some es := by
  induction es with
  | nil => rfl
  | cons e es ih =>
    simp [decodeHistList, decodeHistEntry_encodeHistEntry, ih]

def encodeStore (s : LocalStore) : Json :=
  .obj ([("version", .str s.version), ("profile", encodeProfile s.profile),
    ("products", .arr (s.products.map encodeProduct)),
    ("sync_history", .arr (s.sync_history.map encodeHistEntry))] ++
    optField "last_sync" (s.last_sync.map Json.str))

def decodeStore : Json → Option LocalStore
  | .obj fs => do
    let v ← asStr (jsonLookup "version" fs)
    let pj ← jsonLookup "profile" fs
    let pr ← decodeProfile pj
    let prodj ← jsonLookup "products" fs
    let prods ← (match prodj with | Json.arr js => decodeProducts js | _ => none)
    let hj ← jsonLookup "sync_history" fs
    let hist ← (match hj with | Json.arr js => decodeHistList js | _ => none)
    let ls ← asOptStr (jsonLookup "last_sync" fs)
    some {
      version := v
      profile := pr
      products := prods
      sync_history := hist
      last_sync := ls
    }
  | _ => none

theorem decodeStore_encodeStore (s : LocalStore) :
    decodeStore (encodeStore s) = some s := by
  cases s with
  | mk v pr prods hist ls =>
    cases ls <;>
      simp [encodeStore, decodeStore, jsonLookup, asStr, asOptStr, optField,
        decodeProfile_encodeProfile, decodeProducts_map, decodeHistList_map]

/-- File system surface: a map from paths to the parsed JSON content of the
file at that path (`none` when `existsSync` is false). -/
def Disk : Type := String → Option Json

/-- `save`: overwrite the file at the store path with the serialized
store. -/
def saveStore (disk : Disk) (path : String) (s : LocalStore) : Disk :=
  fun q => if q = path then some (encodeStore s) else disk q

/-- `load`: keep the current store when the file does not exist; otherwise
replace the in-memory store with the parsed document (a document that does
not decode as a store corresponds to the catch branch of the source, which
falls back to the default store). -/
def loadStore (disk : Disk) (path : String) (current : LocalStore) :
    LocalStore :=
  match disk path with
  | none => current
  | some j =>
    match decodeStore j with
    | some st => st
    | none => getDefaultStore

/-- Claim C8: save followed by load on a fresh manager (whose in-memory
store is the default) pointed at the same path reconstructs exactly the
saved store — serialization round trip is the identity, for every store,
including empty, one-product and many-product collections. -/
theorem save_load_roundtrip (disk : Disk) (path : String) (s : LocalStore) :
    loadStore (saveStore disk path s) path getDefaultStore = s := by
  have h1 : saveStore disk path s path = some (encodeStore s) := by
    unfold saveStore
    rw [if_pos rfl]
  unfold loadStore
  rw [h1]
  show (match decodeStore (encodeStore s) with
    | some st => st
    | none => getDefaultStore) = s
  rw [decodeStore_encodeStore]
